import Mathlib

/-!
Verification development for the pint compiler core.

Part 1 (namespace Yurtc) embeds the scalarization lowering pass
(src/yurtc/src/intermediate/transform/scalarize.rs) over a model of the
intermediate intent.  The intermediate-intent store itself
(crate::intermediate), the type tree (crate::types) and the constant
evaluator are not present in the source tree; those are modelled from the
spec (sections 3, 4.1-4.3) and marked as such.

Part 2 (namespace Pintc) embeds the assembly generator
(src/pintc/src/asm_gen.rs): expression compilation, storage-key
compilation, state-read program assembly and per-predicate emission.

Part 3 (namespace PintPkg) embeds the package build driver's plan
execution loop (src/pint-pkg/src/build.rs).

Machine integers (i64, usize) are modelled as Int and Nat; none of the
embedded arithmetic is overflow-sensitive on the verified paths.  Rust
panics (unwrap, expect, assert, unreachable, unimplemented, index
underflow) are modelled as a distinguished error value.
-/

namespace Yurtc

/-- Stable keys into the slot-mapped tables (spec section 4.1). -/
abbrev VarKey := Nat

abbrev ExprKey := Nat

/-- Modelled from the spec: a slot-mapped table (spec 4.1 SlotMap) with
stable keys, insertion at a fresh key, removal by key and iteration in
insertion order.  crate::intermediate is not in the source tree. -/
structure SlotMap (α : Type) where
  next_key : Nat
  entries : List (Nat × α)

def SlotMap.get {α} (m : SlotMap α) (k : Nat) : Option α :=
  (m.entries.find? (fun e => e.1 == k)).map (fun e => e.2)

def SlotMap.insert {α} (m : SlotMap α) (a : α) : Nat × SlotMap α :=
  (m.next_key, ⟨m.next_key + 1, m.entries ++ [(m.next_key, a)]⟩)

def SlotMap.remove {α} (m : SlotMap α) (k : Nat) : SlotMap α :=
  ⟨m.next_key, m.entries.filter (fun e => e.1 != k)⟩

/-- Modelled from the spec: a secondary map keyed by the same keys
(spec 4.1 SecondaryMap), used for the parallel type tables. -/
abbrev KMap (α : Type) := List (Nat × α)

def kmGet {α} (m : KMap α) (k : Nat) : Option α :=
  (m.find? (fun e => e.1 == k)).map (fun e => e.2)

def kmInsert {α} (m : KMap α) (k : Nat) (a : α) : KMap α :=
  if m.any (fun e => e.1 == k) then
    m.map (fun e => if e.1 == k then (k, a) else e)
  else
    m ++ [(k, a)]

def kmRemove {α} (m : KMap α) (k : Nat) : KMap α :=
  m.filter (fun e => e.1 != k)

/-- Primitive type kinds of the yurt IR (modelled from the spec, section 3). -/
inductive PrimitiveKind where
  | int
  | real
  | bool
  | string
deriving DecidableEq

/-- Modelled from the spec: the yurt type tree (crate::types::Type is not in
the source tree).  An array type holds its element type, the range
expression key and the optional resolved size (spec section 3). -/
inductive Ty where
  | primitive (kind : PrimitiveKind)
  | array (ty : Ty) (range : ExprKey) (size : Option Int)
  | tuple (fields : List (Option String × Ty))
  | aliasTy (ty : Ty)

def Ty.is_array : Ty → Bool
  | .array .. => true
  | _ => false

def Ty.is_int : Ty → Bool
  | .primitive .int => true
  | _ => false

def Ty.is_real : Ty → Bool
  | .primitive .real => true
  | _ => false

def Ty.is_bool : Ty → Bool
  | .primitive .bool => true
  | _ => false

def Ty.is_tuple : Ty → Bool
  | .tuple _ => true
  | _ => false

/-- Tuple-field lookup, unwrapping aliases (spec section 3 derived query). -/
def Ty.get_tuple_fields : Ty → Option (List (Option String × Ty))
  | .tuple fields => some fields
  | .aliasTy ty => ty.get_tuple_fields
  | _ => none

mutual

/-- A structural size measure on types, used as the recursion budget of
fix_array_size. -/
def Ty.tsize : Ty → Nat
  | .primitive _ => 1
  | .array ty _ _ => ty.tsize + 1
  | .tuple fields => Ty.tsizeFields fields + 1
  | .aliasTy ty => ty.tsize + 1

def Ty.tsizeFields : List (Option String × Ty) → Nat
  | [] => 0
  | (_, fty) :: rest => fty.tsize + Ty.tsizeFields rest

end

/-- Immediates of the yurt IR (modelled from the spec, section 3). -/
inductive Imm where
  | int (val : Int)
  | real
  | bool (b : Bool)
  | string (s : String)
deriving DecidableEq

inductive BinaryOp where
  | add
  | sub
  | mul
  | div
  | mod
  | equal
  | notEqual
  | lessThan
  | lessThanOrEqual
  | greaterThan
  | greaterThanOrEqual
  | logicalAnd
  | logicalOr
deriving DecidableEq

inductive UnaryOp where
  | neg
  | not
deriving DecidableEq

inductive TupleAccess where
  | index (idx : Nat)
  | name (s : String)
  | error
deriving DecidableEq

/-- Modelled from the spec: the yurt expression table entries
(crate::intermediate::Expr is not in the source tree; variants follow the
spec's expression list, section 3, restricted to the forms the lowering
passes inspect; all other variants flow through wildcard matches). -/
inductive Expr where
  | immediate (value : Imm)
  | pathByName (path : String)
  | pathByKey (var_key : VarKey)
  | unaryOp (op : UnaryOp) (expr : ExprKey)
  | binaryOp (op : BinaryOp) (lhs : ExprKey) (rhs : ExprKey)
  | array (elements : List ExprKey)
  | arrayElementAccess (array : ExprKey) (index : ExprKey)
  | tuple (fields : List (Option String × ExprKey))
  | tupleFieldAccess (tuple : ExprKey) (field : TupleAccess)

/-- A decision variable (spans are dropped from the model). -/
structure Var where
  name : String
deriving DecidableEq

/-- An enum declaration (modelled from the spec: ranges may reference an
enum declaration, which yields the number of variants). -/
structure EnumDecl where
  name : String
  variants : List String
deriving DecidableEq

/-- Errors of the lowering passes (src/yurtc CompileError, payloads such as
spans and message strings dropped; `panicked` stands for any Rust panic). -/
inductive CompileError where
  | internal
  | panicked
  | nonConstArrayLength
  | invalidConstArrayLength
  | nonConstArrayIndex
  | invalidConstArrayIndex
  | arrayIndexOutOfBounds
  | mismatchedArrayComparisonSizes (op : BinaryOp) (lhs_size : Int) (rhs_size : Int)
  | missingSolveDirective
  | evalNonConst
  | fuelOut
deriving DecidableEq

/-- Modelled from the spec: the intermediate intent's tables used by the
scalarization pass (crate::intermediate::IntermediateIntent is not in the
source tree).  Fields mirror the usage in scalarize.rs. -/
structure IntermediateIntent where
  exprs : SlotMap Expr
  expr_types : KMap Ty
  vars : SlotMap Var
  var_types : KMap Ty
  enums : List EnumDecl

/-- Replace child expression keys old -> new inside one expression
(modelled from the spec: whole-contract expression substitution, 4.2). -/
def Expr.replaceKey (e : Expr) (old new : ExprKey) : Expr :=
  let r := fun (k : ExprKey) => if k == old then new else k
  match e with
  | .immediate v => .immediate v
  | .pathByName p => .pathByName p
  | .pathByKey k => .pathByKey k
  | .unaryOp op k => .unaryOp op (r k)
  | .binaryOp op l rr => .binaryOp op (r l) (r rr)
  | .array els => .array (els.map r)
  | .arrayElementAccess a i => .arrayElementAccess (r a) (r i)
  | .tuple fs => .tuple (fs.map (fun f => (f.1, r f.2)))
  | .tupleFieldAccess t f => .tupleFieldAccess (r t) f

mutual

/-- Replace range expression keys old -> new inside a type (spec 4.2: the
type table holds range expressions). -/
def Ty.replaceKey (t : Ty) (old new : ExprKey) : Ty :=
  match t with
  | .primitive k => .primitive k
  | .array ty range size =>
      .array (ty.replaceKey old new) (if range == old then new else range) size
  | .tuple fields => .tuple (Ty.replaceKeyFields fields old new)
  | .aliasTy ty => .aliasTy (ty.replaceKey old new)

def Ty.replaceKeyFields (fs : List (Option String × Ty)) (old new : ExprKey) :
    List (Option String × Ty) :=
  match fs with
  | [] => []
  | (n, fty) :: rest => (n, fty.replaceKey old new) :: Ty.replaceKeyFields rest old new

end

/-- Modelled from the spec (4.2): rewrite every reference to an expression
key across the expression table and the type tables. -/
def IntermediateIntent.replace_exprs (ii : IntermediateIntent) (old new : ExprKey) :
    IntermediateIntent :=
  { ii with
    exprs := ⟨ii.exprs.next_key,
      ii.exprs.entries.map (fun e => (e.1, e.2.replaceKey old new))⟩
    expr_types := ii.expr_types.map (fun e => (e.1, e.2.replaceKey old new))
    var_types := ii.var_types.map (fun e => (e.1, e.2.replaceKey old new)) }

/-- Modelled from the spec (4.3 constant evaluation): evaluate an
expression against an empty environment, folding pure arithmetic,
comparisons and immediate forms; any non-pure reference fails.  The fuel
bounds recursion through the key table; it exceeds the depth of any
acyclic table. -/
def evaluateF : Nat → IntermediateIntent → Expr → Except CompileError Imm
  | 0, _, _ => .error .evalNonConst
  | fuel + 1, ii, e =>
    let evalKey := fun (k : ExprKey) =>
      match ii.exprs.get k with
      | some sub => evaluateF fuel ii sub
      | none => .error .evalNonConst
    match e with
    | .immediate v => .ok v
    | .unaryOp .neg k =>
        match evalKey k with
        | .ok (.int v) => .ok (.int (-v))
        | .ok _ => .error .evalNonConst
        | .error err => .error err
    | .unaryOp .not k =>
        match evalKey k with
        | .ok (.bool b) => .ok (.bool (!b))
        | .ok _ => .error .evalNonConst
        | .error err => .error err
    | .binaryOp op l r =>
        match evalKey l, evalKey r with
        | .ok (.int a), .ok (.int b) =>
            match op with
            | .add => .ok (.int (a + b))
            | .sub => .ok (.int (a - b))
            | .mul => .ok (.int (a * b))
            | .div => .ok (.int (a / b))
            | .mod => .ok (.int (a % b))
            | .equal => .ok (.bool (a == b))
            | .notEqual => .ok (.bool (a != b))
            | .lessThan => .ok (.bool (a < b))
            | .lessThanOrEqual => .ok (.bool (a ≤ b))
            | .greaterThan => .ok (.bool (b < a))
            | .greaterThanOrEqual => .ok (.bool (b ≤ a))
            | _ => .error .evalNonConst
        | .ok (.bool a), .ok (.bool b) =>
            match op with
            | .equal => .ok (.bool (a == b))
            | .notEqual => .ok (.bool (a != b))
            | .logicalAnd => .ok (.bool (a && b))
            | .logicalOr => .ok (.bool (a || b))
            | _ => .error .evalNonConst
        | .error err, _ => .error err
        | _, .error err => .error err
        | _, _ => .error .evalNonConst
    | _ => .error .evalNonConst

/-- Entry point of the constant evaluator (empty environment). -/
def Expr.evaluate (ii : IntermediateIntent) (e : Expr) : Except CompileError Imm :=
  evaluateF (ii.exprs.entries.length + 1) ii e

/-- get_array_params from scalarize.rs: unwrap aliases and return the
element type, range key and optional resolved size of an array type. -/
def get_array_params : Ty → Option (Ty × ExprKey × Option Int)
  | .aliasTy ty => get_array_params ty
  | .array ty range size => some (ty, range, size)
  | _ => none

/-- fix_array_size from scalarize.rs, with an explicit recursion budget
(the source recursion descends through nested array element types; a
budget exceeding the type's structural size never runs out): given an
element type and a range expression key, determine the array size and
return the fixed array type. -/
def fix_array_sizeF : Nat → IntermediateIntent → Ty → ExprKey →
    Except CompileError Ty
  | 0, _, _, _ => .error .fuelOut
  | fuel + 1, ii, el_ty, range_expr_key =>
    if !(el_ty.is_array || el_ty.is_int || el_ty.is_real || el_ty.is_bool) then
      .error .internal
    else
      let fixInner : Except CompileError Ty :=
        if el_ty.is_array then
          match get_array_params el_ty with
          | none => .error .internal
          | some (inner_el_ty, inner_range_key, inner_size) =>
              if inner_size.isNone then
                fix_array_sizeF fuel ii inner_el_ty inner_range_key
              else
                .ok el_ty
        else
          .ok el_ty
      match fixInner with
      | .error err => .error err
      | .ok el_ty =>
        match ii.exprs.get range_expr_key with
        | none => .error .panicked
        | some range_expr =>
          match range_expr with
          | .pathByName path =>
              match ii.enums.findSome? (fun enum_decl =>
                  if enum_decl.name == path then
                    some (Int.ofNat enum_decl.variants.length)
                  else none) with
              | some val => .ok (.array el_ty range_expr_key (some val))
              | none => .error .nonConstArrayLength
          | _ =>
              match range_expr.evaluate ii with
              | .ok (.int val) =>
                  if 0 < val then .ok (.array el_ty range_expr_key (some val))
                  else .error .invalidConstArrayLength
              | .ok _ => .error .invalidConstArrayLength
              | .error _ => .error .nonConstArrayLength

/-- fix_array_size with its sufficient default budget. -/
def fix_array_size (ii : IntermediateIntent) (el_ty : Ty) (range_expr_key : ExprKey) :
    Except CompileError Ty :=
  fix_array_sizeF (el_ty.tsize + 1) ii el_ty range_expr_key

/-- One candidate table entry of fix_array_sizes: key, element type and
range key of an array type whose size is not yet resolved. -/
def unfixedCandidates (tys : KMap Ty) (keys : List Nat) : List (Nat × Ty × ExprKey) :=
  keys.filterMap (fun k =>
    (kmGet tys k).bind (fun ty =>
      (get_array_params ty).bind (fun p =>
        if p.2.2.isNone then some (k, p.1, p.2.1) else none)))

/-- fix_array_sizes from scalarize.rs: resolve the size of every var or
expr type that is an array with unresolved size, writing the fixed type
back into the corresponding type map. -/
def fix_array_sizes (ii : IntermediateIntent) : Except CompileError IntermediateIntent := do
  let var_candidates := unfixedCandidates ii.var_types (ii.vars.entries.map (fun e => e.1))
  let ii ← var_candidates.foldlM (fun ii c => do
      let fixed ← fix_array_size ii c.2.1 c.2.2
      pure { ii with var_types := kmInsert ii.var_types c.1 fixed }) ii
  let expr_candidates := unfixedCandidates ii.expr_types (ii.exprs.entries.map (fun e => e.1))
  let ii ← expr_candidates.foldlM (fun ii c => do
      let fixed ← fix_array_size ii c.2.1 c.2.2
      pure { ii with expr_types := kmInsert ii.expr_types c.1 fixed }) ii
  pure ii

/-- String pieces used when naming scalarized variables. -/
def lbrackStr : String := "["

def rbrackStr : String := "]"

def dotStr : String := "."

/-- The iterate! macro of scalarize.rs: run a step to fixpoint, reporting
whether it ever made progress; a bounded iteration count guards against
infinite loops (source cap 10_000; exceeding it is an internal error). -/
def iterateFix {sigma : Type} (step : sigma -> Except CompileError (Bool × sigma)) :
    Nat -> sigma -> Except CompileError (Bool × sigma)
  | 0, _ => .error .internal
  | fuel + 1, s => do
      let (again, s') <- step s
      if again then do
        let (_, s'') <- iterateFix step fuel s'
        .ok (true, s'')
      else
        .ok (false, s')

/-- Iteration bound corresponding to the source's 10_000 loop-check cap. -/
def LOOP_FUEL : Nat := 10002

/-- One gathered array comparison of lower_array_compares. -/
structure ArrayCmpOp where
  key : ExprKey
  op : BinaryOp
  lhs : ExprKey
  lhs_size : Option Int
  rhs : ExprKey
  rhs_size : Option Int
  el_ty : Ty

/-- The gather phase of lower_array_compares: comparisons (== or !=) whose
both sides have array types. -/
def gather_array_compares (ii : IntermediateIntent) : List ArrayCmpOp :=
  ii.exprs.entries.filterMap (fun e =>
    match e.2 with
    | .binaryOp op lhs rhs =>
        if op == .equal || op == .notEqual then
          (kmGet ii.expr_types lhs).bind (fun lty =>
            (get_array_params lty).bind (fun lp =>
              (kmGet ii.expr_types rhs).bind (fun rty =>
                (get_array_params rty).map (fun rp =>
                  { key := e.1, op := op, lhs := lhs, lhs_size := lp.2.2,
                    rhs := rhs, rhs_size := rp.2.2, el_ty := lp.1 }))))
        else none
    | _ => none)

/-- Expand one gathered array comparison into an AND-chain of element-wise
comparisons (the loop body of lower_array_compares). -/
def lower_one_array_compare (ii : IntermediateIntent) (c : ArrayCmpOp) :
    Except CompileError IntermediateIntent := do
  let lhs_size <- match c.lhs_size with
    | some s => pure s
    | none => .error .internal
  let rhs_size <- match c.rhs_size with
    | some s => pure s
    | none => .error .internal
  if lhs_size != rhs_size then
    .error (.mismatchedArrayComparisonSizes c.op lhs_size rhs_size)
  else
    let intTy : Ty := .primitive .int
    let boolTy : Ty := .primitive .bool
    let build := (List.range lhs_size.toNat).foldl (fun (acc : IntermediateIntent × List ExprKey) idx =>
      let ii := acc.1
      let (imm_idx_key, exprs1) := ii.exprs.insert (.immediate (.int idx))
      let ii := { ii with exprs := exprs1,
                          expr_types := kmInsert ii.expr_types imm_idx_key intTy }
      let (lhs_access, exprs2) := ii.exprs.insert (.arrayElementAccess c.lhs imm_idx_key)
      let ii := { ii with exprs := exprs2 }
      let (rhs_access, exprs3) := ii.exprs.insert (.arrayElementAccess c.rhs imm_idx_key)
      let ii := { ii with exprs := exprs3,
                          expr_types :=
                            kmInsert (kmInsert ii.expr_types lhs_access c.el_ty)
                              rhs_access c.el_ty }
      let (cmp_key, exprs4) := ii.exprs.insert (.binaryOp c.op lhs_access rhs_access)
      ({ ii with exprs := exprs4 }, acc.2 ++ [cmp_key])) (ii, [])
    let ii := build.1
    match build.2 with
    | [] => .error .panicked
    | first :: rest =>
      let reduced := rest.foldl (fun (acc : IntermediateIntent × ExprKey) cmp_op_key =>
        let ii := acc.1
        let (and_op_key, exprs5) := ii.exprs.insert (.binaryOp .logicalAnd acc.2 cmp_op_key)
        ({ ii with exprs := exprs5,
                   expr_types := kmInsert ii.expr_types and_op_key boolTy }, and_op_key))
        (ii, first)
      let ii := reduced.1
      let and_chain_expr_key := reduced.2
      let ii := { ii with expr_types := kmInsert ii.expr_types and_chain_expr_key boolTy }
      let ii := ii.replace_exprs c.key and_chain_expr_key
      .ok { ii with exprs := ii.exprs.remove c.key,
                    expr_types := kmRemove ii.expr_types c.key }

/-- lower_array_compares from scalarize.rs: expand every == or != between
arrays into an AND-chain of element-wise comparisons. -/
def lower_array_compares (ii : IntermediateIntent) :
    Except CompileError (Bool × IntermediateIntent) :=
  let ops := gather_array_compares ii
  if ops.isEmpty then
    .ok (false, ii)
  else do
    let ii <- ops.foldlM lower_one_array_compare ii
    .ok (true, ii)

/-- The gather phase of scalarize_array_access: every ArrayElementAccess
whose base is a path to the given array variable (by name or by key).
A dangling base key is a panic in the source. -/
def gather_array_accesses (ii : IntermediateIntent) (array_var_name : String)
    (array_var_key : VarKey) : Except CompileError (List (ExprKey × ExprKey)) :=
  ii.exprs.entries.foldlM (fun acc e =>
    match e.2 with
    | .arrayElementAccess a i =>
        match ii.exprs.get a with
        | none => .error .panicked
        | some (.pathByName p) =>
            if p == array_var_name then .ok (acc ++ [(e.1, i)]) else .ok acc
        | some (.pathByKey k) =>
            if k == array_var_key then .ok (acc ++ [(e.1, i)]) else .ok acc
        | some _ => .ok acc
    | _ => .ok acc) []

/-- scalarize_array_access from scalarize.rs: rewrite each access into the
given array variable into a direct reference to the corresponding scalar
variable, having evaluated the index at compile time. -/
def scalarize_array_access (ii : IntermediateIntent) (array_var_name : String)
    (array_var_key : VarKey) (array_size : Int) (el_ty : Ty)
    (new_array_var_keys : List VarKey) : Except CompileError IntermediateIntent := do
  let accesses <- gather_array_accesses ii array_var_name array_var_key
  accesses.foldlM (fun ii acc => do
    let array_access_key := acc.1
    let index_key := acc.2
    match ii.exprs.get index_key with
    | none => .error .panicked
    | some index_expr =>
      match index_expr.evaluate ii with
      | .error _ => .error .nonConstArrayIndex
      | .ok (.int imm_val) =>
          if imm_val < 0 || array_size <= imm_val then
            .error .arrayIndexOutOfBounds
          else
            match new_array_var_keys.get? imm_val.toNat with
            | none => .error .panicked
            | some new_key =>
              let (new_access_key, exprs') := ii.exprs.insert (.pathByKey new_key)
              let ii := { ii with exprs := exprs',
                                  expr_types := kmInsert ii.expr_types new_access_key el_ty }
              let ii := ii.replace_exprs array_access_key new_access_key
              .ok { ii with exprs := ii.exprs.remove array_access_key,
                            expr_types := kmRemove ii.expr_types array_access_key }
      | .ok _ => .error .invalidConstArrayIndex) ii

/-- scalarize_array from scalarize.rs: convert the next array variable into
one fresh variable per element, rewrite its accesses and remove it. -/
def scalarize_array (ii : IntermediateIntent) :
    Except CompileError (Bool × IntermediateIntent) :=
  match ii.var_types.findSome? (fun e =>
      (get_array_params e.2).map (fun p => (e.1, p.1, p.2.2))) with
  | none => .ok (false, ii)
  | some (array_var_key, el_ty, opt_size) => do
    let array_size <- match opt_size with
      | some s => pure s
      | none => .error .internal
    let array_name <- match ii.vars.get array_var_key with
      | some var => pure var.name
      | none => .error .internal
    let seeded := (List.range array_size.toNat).foldl
      (fun (acc : List VarKey × IntermediateIntent) idx =>
        let ii := acc.2
        let vname := array_name ++ lbrackStr ++ toString idx ++ rbrackStr
        let (new_var_key, vars') := ii.vars.insert ⟨vname⟩
        (acc.1 ++ [new_var_key],
          { ii with vars := vars',
                    var_types := kmInsert ii.var_types new_var_key el_ty })) ([], ii)
    let new_var_keys := seeded.1
    let ii := seeded.2
    let ii <- scalarize_array_access ii array_name array_var_key array_size el_ty new_var_keys
    .ok (true, { ii with vars := ii.vars.remove array_var_key,
                         var_types := kmRemove ii.var_types array_var_key })

/-- scalarize_arrays from scalarize.rs: lower array comparisons to a
fixpoint, then scalarize array variables one at a time to a fixpoint. -/
def scalarize_arrays (ii : IntermediateIntent) :
    Except CompileError (Bool × IntermediateIntent) := do
  let (ma, ii) <- iterateFix lower_array_compares LOOP_FUEL ii
  let (mb, ii) <- iterateFix scalarize_array LOOP_FUEL ii
  .ok (ma || mb, ii)

/-- A string-keyed map with overwrite-on-insert (models the BTreeMap used
for the split tuple variables). -/
abbrev SMap := List (String × (VarKey × Ty))

def smapGet (m : SMap) (k : String) : Option (VarKey × Ty) :=
  (m.find? (fun e => e.1 == k)).map (fun e => e.2)

def smapInsert (m : SMap) (k : String) (v : VarKey × Ty) : SMap :=
  if m.any (fun e => e.1 == k) then
    m.map (fun e => if e.1 == k then (k, v) else e)
  else
    m ++ [(k, v)]

/-- One gathered tuple comparison of lower_tuple_compares. -/
structure TupleCmpOp where
  key : ExprKey
  op : BinaryOp
  lhs : ExprKey
  rhs : ExprKey

/-- The gather phase of lower_tuple_compares: == or != whose left side has
tuple type; the source asserts the right side is then also a tuple. -/
def gather_tuple_compares (ii : IntermediateIntent) :
    Except CompileError (List TupleCmpOp) :=
  ii.exprs.entries.foldlM (fun acc e =>
    match e.2 with
    | .binaryOp op lhs rhs =>
        if (op == .equal || op == .notEqual)
            && ((kmGet ii.expr_types lhs).map Ty.is_tuple |>.getD false) then
          match kmGet ii.expr_types rhs with
          | none => .error .panicked
          | some rty =>
              if rty.is_tuple then .ok (acc ++ [⟨e.1, op, lhs, rhs⟩])
              else .error .panicked
        else .ok acc
    | _ => .ok acc) []

/-- Expand one gathered tuple comparison into an AND-chain of
field-by-field comparisons (the loop body of lower_tuple_compares). -/
def lower_one_tuple_compare (ii : IntermediateIntent) (c : TupleCmpOp) :
    Except CompileError IntermediateIntent := do
  let lhs_fields <- match kmGet ii.expr_types c.lhs with
    | none => .error .panicked
    | some lty =>
        match lty.get_tuple_fields with
        | none => .error .panicked
        | some fs => pure fs
  let rhs_fields <- match kmGet ii.expr_types c.rhs with
    | none => .error .panicked
    | some rty =>
        match rty.get_tuple_fields with
        | none => .error .panicked
        | some fs => pure fs
  let use_named_accessors :=
    lhs_fields.all (fun f => f.1.isSome) && rhs_fields.all (fun f => f.1.isSome)
  let boolTy : Ty := .primitive .bool
  let built <- lhs_fields.enum.foldlM
    (fun (acc : IntermediateIntent × List ExprKey) fe => do
      let field_idx := fe.1
      let opt_field_name := fe.2.1
      let field_ty := fe.2.2
      let ii := acc.1
      let lhs_field_access :=
        (opt_field_name.map TupleAccess.name).getD (.index field_idx)
      let rhs_field_access <-
        if use_named_accessors then
          pure lhs_field_access
        else
          match rhs_fields.get? field_idx with
          | none => .error .panicked
          | some rf => pure ((rf.1.map TupleAccess.name).getD (.index field_idx))
      let (lhs_access, exprs1) := ii.exprs.insert (.tupleFieldAccess c.lhs lhs_field_access)
      let ii := { ii with exprs := exprs1 }
      let (rhs_access, exprs2) := ii.exprs.insert (.tupleFieldAccess c.rhs rhs_field_access)
      let ii := { ii with exprs := exprs2,
                          expr_types :=
                            kmInsert (kmInsert ii.expr_types lhs_access field_ty)
                              rhs_access field_ty }
      let (field_compare_op, exprs3) := ii.exprs.insert (.binaryOp c.op lhs_access rhs_access)
      let ii := { ii with exprs := exprs3,
                          expr_types := kmInsert ii.expr_types field_compare_op boolTy }
      .ok (ii, acc.2 ++ [field_compare_op])) (ii, [])
  let ii := built.1
  match built.2 with
  | [] => .error .panicked
  | first :: rest =>
    let reduced := rest.foldl (fun (acc : IntermediateIntent × ExprKey) compare_op_key =>
      let ii := acc.1
      let (and_op_key, exprs4) := ii.exprs.insert (.binaryOp .logicalAnd acc.2 compare_op_key)
      ({ ii with exprs := exprs4,
                 expr_types := kmInsert ii.expr_types and_op_key boolTy }, and_op_key))
      (ii, first)
    let ii := reduced.1
    let and_chain_expr_key := reduced.2
    let ii := ii.replace_exprs c.key and_chain_expr_key
    .ok { ii with exprs := ii.exprs.remove c.key,
                  expr_types := kmRemove ii.expr_types c.key }

/-- lower_tuple_compares from scalarize.rs. -/
def lower_tuple_compares (ii : IntermediateIntent) :
    Except CompileError (Bool × IntermediateIntent) := do
  let ops <- gather_tuple_compares ii
  let modified := !ops.isEmpty
  let ii <- ops.foldlM lower_one_tuple_compare ii
  .ok (modified, ii)

/-- One variable's step of the gather phase of split_tuple_vars: a tuple
variable not yet split contributes the names and types of its prospective
field variables. -/
def gtv_step (ii : IntermediateIntent) (old_tuple_vars : List VarKey)
    (acc : List ((String × Option String) × Ty) × List VarKey) (e : Nat × Var) :
    Except CompileError (List ((String × Option String) × Ty) × List VarKey) :=
  let var_key := e.1
  let name := e.2.name
  if old_tuple_vars.contains var_key || acc.2.contains var_key then
    .ok acc
  else
    match kmGet ii.var_types var_key with
    | none => .error .internal
    | some var_ty =>
      match var_ty.get_tuple_fields with
      | some fields =>
          let news := fields.enum.map (fun fe =>
            let new_idx_name := name ++ dotStr ++ toString fe.1
            let new_sym_name := fe.2.1.map (fun fname => name ++ dotStr ++ fname)
            ((new_idx_name, new_sym_name), fe.2.2))
          .ok (acc.1 ++ news, acc.2 ++ [var_key])
      | none => .ok acc

/-- The gather phase of split_tuple_vars: for every tuple variable not yet
split, the names and types of its prospective field variables. -/
def gather_tuple_vars (ii : IntermediateIntent) (old_tuple_vars : List VarKey) :
    Except CompileError (List ((String × Option String) × Ty) × List VarKey) :=
  ii.vars.entries.foldlM (gtv_step ii old_tuple_vars) ([], old_tuple_vars)

/-- split_tuple_vars from scalarize.rs: split every tuple variable into one
variable per field and rewrite matching tuple-field accesses.  The list of
already-split variable keys is threaded through (the source's mutable
old_tuple_vars). -/
def split_tuple_vars (ii : IntermediateIntent) (old_tuple_vars : List VarKey) :
    Except CompileError (Bool × IntermediateIntent × List VarKey) := do
  let gathered <- gather_tuple_vars ii old_tuple_vars
  let new_vars := gathered.1
  let old_tuple_vars := gathered.2
  if new_vars.isEmpty then
    .ok (false, ii, old_tuple_vars)
  else
    let seeded := new_vars.foldl
      (fun (acc : IntermediateIntent × SMap) nv =>
        let ii := acc.1
        let idx_name := nv.1.1
        let opt_sym_name := nv.1.2
        let field_ty := nv.2
        let (new_var_key, vars') := ii.vars.insert ⟨(opt_sym_name.getD idx_name)⟩
        let ii := { ii with vars := vars',
                            var_types := kmInsert ii.var_types new_var_key field_ty }
        let m := acc.2
        let m := match opt_sym_name with
          | some sym_name => smapInsert m sym_name (new_var_key, field_ty)
          | none => m
        (ii, smapInsert m idx_name (new_var_key, field_ty))) (ii, [])
    let ii := seeded.1
    let new_tuple_vars := seeded.2
    let new_accesses <- ii.exprs.entries.foldlM
      (fun (acc : List (ExprKey × VarKey × Ty)) e => do
        match e.2 with
        | .tupleFieldAccess tuple field =>
            let field_name <- match field with
              | .index field_idx => pure (toString field_idx)
              | .name n => pure n
              | .error => .error .panicked
            let tuple_name_opt <- match ii.exprs.get tuple with
              | some (.pathByKey vk) =>
                  match ii.vars.get vk with
                  | none => .error .panicked
                  | some v => pure (some v.name)
              | some (.pathByName p) => pure (some p)
              | _ => pure none
            match tuple_name_opt with
            | none => .ok acc
            | some tuple_name =>
                let access_name := tuple_name ++ dotStr ++ field_name
                match smapGet new_tuple_vars access_name with
                | some nv => .ok (acc ++ [(e.1, nv.1, nv.2)])
                | none => .ok acc
        | _ => .ok acc) []
    let ii := new_accesses.foldl (fun ii na =>
      let old_expr_key := na.1
      let new_var_key := na.2.1
      let new_tuple_var_ty := na.2.2
      let (new_expr_key, exprs') := ii.exprs.insert (.pathByKey new_var_key)
      let ii := { ii with exprs := exprs',
                          expr_types := kmInsert ii.expr_types new_expr_key new_tuple_var_ty }
      let ii := ii.replace_exprs old_expr_key new_expr_key
      { ii with exprs := ii.exprs.remove old_expr_key,
                expr_types := kmRemove ii.expr_types old_expr_key }) ii
    .ok (true, ii, old_tuple_vars)

/-- The closing loop of scalarize_tuples: remove every split tuple
variable and its type-table entry. -/
def removeVarKeys (keys : List VarKey) (ii : IntermediateIntent) : IntermediateIntent :=
  keys.foldl (fun (ii : IntermediateIntent) var_key =>
    { ii with vars := ii.vars.remove var_key,
              var_types := kmRemove ii.var_types var_key }) ii

/-- scalarize_tuples from scalarize.rs: lower tuple comparisons to a
fixpoint, split tuple variables to a fixpoint, then remove the old tuple
variables. -/
def scalarize_tuples (ii : IntermediateIntent) :
    Except CompileError (Bool × IntermediateIntent) := do
  let (mc, ii) <- iterateFix lower_tuple_compares LOOP_FUEL ii
  let (md, s) <- iterateFix
    (fun (s : IntermediateIntent × List VarKey) => do
      let (b, ii', old') <- split_tuple_vars s.1 s.2
      .ok (b, (ii', old'))) LOOP_FUEL (ii, [])
  .ok (mc || md, removeVarKeys s.2 s.1)

/-- One round of the scalarize() driver loop. -/
def scalarizeStep (ii : IntermediateIntent) :
    Except CompileError (Bool × IntermediateIntent) := do
  let (ma, ii) <- scalarize_arrays ii
  let (mt, ii) <- scalarize_tuples ii
  .ok (ma || mt, ii)

/-- scalarize from scalarize.rs: fix array sizes, then run array and tuple
scalarization to a fixpoint. -/
def scalarize (ii : IntermediateIntent) : Except CompileError IntermediateIntent := do
  let ii <- fix_array_sizes ii
  let (_, ii) <- iterateFix scalarizeStep LOOP_FUEL ii
  .ok ii

/-- Does the variable key carry an array type in the var type table? -/
def hasArrayTyB (ii : IntermediateIntent) (k : VarKey) : Bool :=
  match kmGet ii.var_types k with
  | some ty => (get_array_params ty).isSome
  | none => false

/-- Does the variable key carry a tuple type in the var type table? -/
def hasTupleTyB (ii : IntermediateIntent) (k : VarKey) : Bool :=
  match kmGet ii.var_types k with
  | some ty => ty.get_tuple_fields.isSome
  | none => false

/-- Does the expression at this key resolve to a (any) decision variable,
either by name or by key? -/
def resolvesToVarB (ii : IntermediateIntent) (k : ExprKey) : Bool :=
  match ii.exprs.get k with
  | some (.pathByName p) => ii.vars.entries.any (fun e => e.2.name == p)
  | some (.pathByKey vk) => (ii.vars.get vk).isSome
  | _ => false

/-- Does the expression at this key resolve to a decision variable of
array type? -/
def resolvesToArrayVarB (ii : IntermediateIntent) (k : ExprKey) : Bool :=
  match ii.exprs.get k with
  | some (.pathByName p) => ii.vars.entries.any (fun e => e.2.name == p && hasArrayTyB ii e.1)
  | some (.pathByKey vk) => (ii.vars.get vk).isSome && hasArrayTyB ii vk
  | _ => false

/-- Does the expression at this key resolve to a decision variable of
tuple type? -/
def resolvesToTupleVarB (ii : IntermediateIntent) (k : ExprKey) : Bool :=
  match ii.exprs.get k with
  | some (.pathByName p) => ii.vars.entries.any (fun e => e.2.name == p && hasTupleTyB ii e.1)
  | some (.pathByKey vk) => (ii.vars.get vk).isSome && hasTupleTyB ii vk
  | _ => false

/-- No decision variable has an array or tuple type. -/
def no_agg_vars (ii : IntermediateIntent) : Bool :=
  ii.vars.entries.all (fun e =>
    match kmGet ii.var_types e.1 with
    | some ty => (get_array_params ty).isNone && ty.get_tuple_fields.isNone
    | none => true)

/-- The post-scalarization invariant exactly as the claim states it: no
decision variable has array or tuple type, and no ArrayElementAccess or
TupleFieldAccess expression targets a decision variable (of any type). -/
def scalarize_invariant_claimed (ii : IntermediateIntent) : Bool :=
  no_agg_vars ii
    && ii.exprs.entries.all (fun e =>
      match e.2 with
      | .arrayElementAccess a _ => !(resolvesToVarB ii a)
      | .tupleFieldAccess t _ => !(resolvesToVarB ii t)
      | _ => true)

/-- The amended invariant: no decision variable has array or tuple type,
and no ArrayElementAccess (resp. TupleFieldAccess) targets a decision
variable of array (resp. tuple) type. -/
def scalarize_invariant_amended (ii : IntermediateIntent) : Bool :=
  no_agg_vars ii
    && ii.exprs.entries.all (fun e =>
      match e.2 with
      | .arrayElementAccess a _ => !(resolvesToArrayVarB ii a)
      | .tupleFieldAccess t _ => !(resolvesToTupleVarB ii t)
      | _ => true)

end Yurtc

namespace Pintc

/-- Modelled from the spec (section 3): the pintc type tree
(crate::types is not in the source tree).  Aliases and unions are final
after flattening (spec 4.5) and are omitted. -/
inductive Ty where
  | bool
  | int
  | real
  | string
  | b256
  | tuple (fields : List (Option String × Ty))
  | array (el : Ty) (size : Int)
  | map (key : Ty) (value : Ty)

mutual

/-- Modelled from the spec (section 3): the number of words a value of
this type occupies on the operand stack. -/
def Ty.size (t : Ty) : Nat :=
  match t with
  | .bool | .int | .real | .string => 1
  | .b256 => 4
  | .tuple fields => Ty.sizeFields fields
  | .array el n => el.size * n.toNat
  | .map _ _ => 1

def Ty.sizeFields (fs : List (Option String × Ty)) : Nat :=
  match fs with
  | [] => 0
  | (_, fty) :: rest => fty.size + Ty.sizeFields rest

end

mutual

/-- Modelled from the spec (section 3): the number of words a value of
this type occupies when stored in a state slot. -/
def Ty.storage_slots (t : Ty) : Nat :=
  match t with
  | .bool | .int | .real | .string => 1
  | .b256 => 4
  | .tuple fields => Ty.storageSlotsFields fields
  | .array el n => el.storage_slots * n.toNat
  | .map _ _ => 1

def Ty.storageSlotsFields (fs : List (Option String × Ty)) : Nat :=
  match fs with
  | [] => 0
  | (_, fty) :: rest => fty.storage_slots + Ty.storageSlotsFields rest

end

def Ty.is_any_primitive : Ty → Bool
  | .bool | .int | .real | .string | .b256 => true
  | _ => false

def Ty.is_map : Ty → Bool
  | .map _ _ => true
  | _ => false

def Ty.is_int : Ty → Bool
  | .int => true
  | _ => false

def Ty.is_b256 : Ty → Bool
  | .b256 => true
  | _ => false

def Ty.get_array_size : Ty → Option Int
  | .array _ n => some n
  | _ => none

def Ty.get_array_el_type : Ty → Option Ty
  | .array el _ => some el
  | _ => none

def Ty.get_tuple_fields : Ty → Option (List (Option String × Ty))
  | .tuple fields => some fields
  | _ => none

/-- The wrapping u64-to-i64 cast applied to each b256 word on push. -/
def u64_as_i64 (w : Nat) : Int :=
  let v : Nat := w % (2 ^ 64)
  if v < 2 ^ 63 then (v : Int) else (v : Int) - 2 ^ 64

/-- Immediates of the pintc expression tree (crate::expr::Immediate). -/
inductive Imm where
  | int (val : Int)
  | b256 (w0 w1 w2 w3 : Nat)
  | bool (b : Bool)
  | real
  | string (s : String)
  | nil
  | error
  | array (elements : List Imm)
  | tuple (fields : List (Option String × Imm))

inductive TupleAccess where
  | index (idx : Nat)
  | name (s : String)
  | error
deriving DecidableEq

inductive UnaryOp where
  | not
  | nextState
  | neg
  | error
deriving DecidableEq

inductive BinaryOp where
  | add
  | sub
  | mul
  | div
  | mod
  | equal
  | notEqual
  | lessThanOrEqual
  | lessThan
  | greaterThanOrEqual
  | greaterThan
  | logicalAnd
  | logicalOr
deriving DecidableEq

/-- The pintc expression tree as consumed by the assembly generator.  The
slot-mapped expression table is embedded as a tree: each ExprKey child is
inlined, and the parallel type table entry is carried as the node's ty
field.  PathByKey carries the referenced variable's name (the source
resolves the key to the name immediately).  Cast, In, Range and Generator
only hit wildcard error branches and their payloads are dropped.  A Select
carries the externally-provided can-panic flags of its branches as data. -/
inductive Expr where
  | error (ty : Ty)
  | immediate (value : Imm) (ty : Ty)
  | array (elements : List Expr) (ty : Ty)
  | tuple (fields : List (Option String × Expr)) (ty : Ty)
  | binaryOp (op : BinaryOp) (lhs rhs : Expr) (ty : Ty)
  | unaryOp (op : UnaryOp) (expr : Expr) (ty : Ty)
  | macroCall (ty : Ty)
  | intrinsicCall (name : String) (args : List Expr) (ty : Ty)
  | select (condition then_expr else_expr : Expr)
      (then_can_panic else_can_panic : Bool) (ty : Ty)
  | cast (ty : Ty)
  | inExpr (ty : Ty)
  | range (ty : Ty)
  | generator (ty : Ty)
  | storageAccess (name : String) (ty : Ty)
  | externalStorageAccess (interface_instance : String) (name : String) (ty : Ty)
  | index (expr : Expr) (idx : Expr) (ty : Ty)
  | pathByName (path : String) (ty : Ty)
  | pathByKey (path : String) (ty : Ty)
  | tupleFieldAccess (tuple : Expr) (field : TupleAccess) (ty : Ty)

/-- The parallel type table lookup expr.get_ty(pred). -/
def Expr.get_ty : Expr → Ty
  | .error ty => ty
  | .immediate _ ty => ty
  | .array _ ty => ty
  | .tuple _ ty => ty
  | .binaryOp _ _ _ ty => ty
  | .unaryOp _ _ ty => ty
  | .macroCall ty => ty
  | .intrinsicCall _ _ ty => ty
  | .select _ _ _ _ _ ty => ty
  | .cast ty => ty
  | .inExpr ty => ty
  | .range ty => ty
  | .generator ty => ty
  | .storageAccess _ ty => ty
  | .externalStorageAccess _ _ ty => ty
  | .index _ _ ty => ty
  | .pathByName _ ty => ty
  | .pathByKey _ ty => ty
  | .tupleFieldAccess _ _ ty => ty

/-- A decision variable together with its type-table entry. -/
structure Var where
  name : String
  is_pub : Bool
  ty : Ty

/-- A state declaration together with its type-table entry. -/
structure StateVar where
  name : String
  expr : Expr
  ty : Ty

structure StorageVar where
  name : String
  ty : Ty

structure InterfaceVar where
  name : String
  ty : Ty

structure PredicateInterface where
  name : String
  vars : List InterfaceVar

structure Interface where
  name : String
  storage : Option (List StorageVar)
  predicate_interfaces : List PredicateInterface

structure InterfaceInstance where
  name : String
  interface : String
  address : Expr

structure PredicateInstance where
  name : String
  interface_instance : String
  predicate : String

structure ConstraintDecl where
  expr : Expr

/-- The predicate as read by the assembly generator (the fields of
crate::predicate::Predicate that asm_gen.rs consumes; spans dropped). -/
structure Predicate where
  name : String
  vars : List Var
  states : List StateVar
  constraints : List ConstraintDecl
  storage : Option (List StorageVar)
  interfaces : List Interface
  interface_instances : List InterfaceInstance
  predicate_instances : List PredicateInstance

/-- The constraint opcode set (external crate constraint_asm; the closed
tagged union restricted to the opcodes the generator emits). -/
inductive Constr where
  | push (val : Int)
  | pop
  | select
  | selectRange
  | dup
  | add
  | sub
  | mul
  | div
  | mod
  | eq
  | eqRange
  | not
  | lte
  | lt
  | gte
  | gt
  | decisionVar
  | decisionVarRange
  | state
  | stateRange
  | stateLen
  | mutKeysLen
  | mutKeysContains
  | thisAddress
  | thisContractAddress
  | thisPathway
  | transient
  | sha256
  | verifyEd25519
  | recoverSecp256k1
  | jumpForwardIf
deriving DecidableEq

/-- The state-read opcode set (external crate state_asm): constraint ops
are embedded via From, plus slot allocation, the key-range reads and the
halt terminator. -/
inductive StateRead where
  | constraintOp (op : Constr)
  | allocSlots
  | keyRange
  | keyRangeExternal
  | halt
deriving DecidableEq

/-- StorageKeyKind from asm_gen.rs. -/
inductive StorageKeyKind where
  | static (key : List Int)
  | dynamic (len : Nat)
deriving DecidableEq

/-- StorageKey from asm_gen.rs. -/
structure StorageKey where
  kind : StorageKeyKind
  is_external : Bool
deriving DecidableEq

def StorageKey.len (k : StorageKey) : Nat :=
  match k.kind with
  | .static key => key.length
  | .dynamic len => len

/-- Location from asm_gen.rs: the pointer protocol of expression
compilation. -/
inductive Location where
  | value
  | decisionVar (len : Nat)
  | transient (pathway : Option String) (len : Nat)
  | state (next_state : Bool)
deriving DecidableEq

/-- Errors: emitted covers handler.emit_err internal compile errors,
panicked covers Rust panics (unwrap, expect, assert, unreachable,
unimplemented, vector index and usize underflow). -/
inductive AsmErr where
  | emitted
  | panicked
  | fuelOut
deriving DecidableEq

def boolToInt (b : Bool) : Int := if b then 1 else 0

/-- Vec::insert - panics when the position exceeds the length. -/
def vecInsert {α : Type} (l : List α) (pos : Nat) (x : α) : Except AsmErr (List α) :=
  if pos ≤ l.length then .ok (l.insertIdx pos x) else .error .panicked

/-- Vector element assignment - panics when out of bounds. -/
def vecSet {α : Type} (l : List α) (pos : Nat) (x : α) : Except AsmErr (List α) :=
  if pos < l.length then .ok (l.set pos x) else .error .panicked

end Pintc

namespace Pintc

/-- Suffix strings matched by the storage-get intrinsic dispatch. -/
def storage_get_str : String := "__storage_get"

def storage_get_ext_str : String := "__storage_get_extern"

/-- Pathway variable name pieces for external publics (4.4.5). -/
def pathway_prefix_str : String := "__"

def pathway_suffix_str : String := "_pathway"

def colons_str : String := "::"

/-- The external-public resolution of compile_path: walk the predicate
instances and find the first whose interface chain declares a var named
instance::var matching the path. -/
def resolve_external_var (pred : Predicate) (path : String) :
    Option (Nat × InterfaceVar × String) :=
  pred.predicate_instances.findSome? (fun pi =>
    ((pred.interface_instances.find? (fun e => e.name == pi.interface_instance)).bind
      (fun inst =>
        (pred.interfaces.find? (fun e => e.name == inst.interface)).bind
          (fun intf =>
            (intf.predicate_interfaces.find? (fun e => e.name == pi.predicate)).bind
              (fun pintf =>
                (pintf.vars.findIdx? (fun v => pi.name ++ colons_str ++ v.name == path)).bind
                  (fun ti =>
                    (pintf.vars.find? (fun v => pi.name ++ colons_str ++ v.name == path)).map
                      (fun v => (ti, v, pi.name))))))))

/-- compile_path from asm_gen.rs: resolve a path to a private var, a
public var, a state, or an external public var, emitting the slot or key
pushes and returning the pointer Location. -/
def compile_path (pred : Predicate) (path : String) (asm : List Constr) :
    Except AsmErr (List Constr × Location) :=
  let var_index := (pred.vars.filter (fun v => !v.is_pub)).findIdx? (fun v => v.name == path)
  let pub_var_index := (pred.vars.filter (fun v => v.is_pub)).findIdx? (fun v => v.name == path)
  let storage_index := pred.states.findIdx? (fun s => s.name == path)
  match var_index with
  | some vi =>
      match pred.vars.find? (fun v => v.name == path) with
      | none => .error .panicked
      | some var =>
          .ok (asm ++ [.push vi], .decisionVar var.ty.size)
  | none =>
    match pub_var_index with
    | some pvi =>
        match pred.vars.find? (fun v => v.name == path) with
        | none => .error .panicked
        | some var =>
            if var.ty.is_any_primitive then
              .ok (asm ++ [.push pvi], .transient none 1)
            else
              .ok (asm ++ [.push pvi, .push 0], .transient none 2)
    | none =>
      match storage_index with
      | some si =>
          let slot_index : Nat :=
            ((pred.states.take si).map (fun st => st.ty.storage_slots)).sum
          .ok (asm ++ [.push slot_index], .state false)
      | none =>
          match resolve_external_var pred path with
          | some (transient_index, var, inst_name) =>
              let pathway := pathway_prefix_str ++ inst_name ++ pathway_suffix_str
              if !var.ty.is_any_primitive then
                .ok (asm ++ [.push transient_index, .push 0], .transient (some pathway) 2)
              else
                .ok (asm ++ [.push transient_index], .transient (some pathway) 1)
          | none => .error .emitted

mutual

/-- The immediate serializer inside compile_value_expr: ints as one word,
b256 as four words, arrays and tuples by element concatenation; other
literal forms are unimplemented panics. -/
def compile_immediate (asm : List Constr) (imm : Imm) : Except AsmErr (List Constr) :=
  match imm with
  | .int val => .ok (asm ++ [.push val])
  | .b256 w0 w1 w2 w3 =>
      .ok (asm ++ [.push (u64_as_i64 w0), .push (u64_as_i64 w1),
                   .push (u64_as_i64 w2), .push (u64_as_i64 w3)])
  | .array elements => compile_immediates asm elements
  | .tuple fields => compile_immediate_fields asm fields
  | .error | .nil | .real | .bool _ | .string _ => .error .panicked

def compile_immediates (asm : List Constr) (els : List Imm) : Except AsmErr (List Constr) :=
  match els with
  | [] => .ok asm
  | el :: rest => do
      let asm <- compile_immediate asm el
      compile_immediates asm rest

def compile_immediate_fields (asm : List Constr) (fs : List (Option String × Imm)) :
    Except AsmErr (List Constr) :=
  match fs with
  | [] => .ok asm
  | (_, f) :: rest => do
      let asm <- compile_immediate asm f
      compile_immediate_fields asm rest

end

/-- Reading a pointer Location as a value: the read opcode driven by the
pointer kind and the type size (the non-Value arms of compile_expr's
post-pointer dispatch in asm_gen.rs). -/
def compile_pointer_read (pred : Predicate) (expr_ty : Ty) (loc : Location)
    (asm : List Constr) : Except AsmErr (List Constr) :=
  match loc with
  | .value => .error .panicked
  | .decisionVar len =>
      if len == 1 then .ok (asm ++ [.decisionVar])
      else .ok (asm ++ [.push 0, .push len, .decisionVarRange])
  | .transient pathway len =>
      match pathway with
      | some pathway_var_name =>
          match (pred.vars.filter (fun v => !v.is_pub)).findIdx?
              (fun v => v.name == pathway_var_name) with
          | none => .error .panicked
          | some vi => .ok (asm ++ [.push len, .push vi, .decisionVar, .transient])
      | none => .ok (asm ++ [.push len, .thisPathway, .transient])
  | .state next_state =>
      let slots := expr_ty.storage_slots
      if slots == 1 then .ok (asm ++ [.push (boolToInt next_state), .state])
      else .ok (asm ++ [.push slots, .push (boolToInt next_state), .stateRange])

mutual

/-- compile_expr from asm_gen.rs: compile the pointer, then for value
consumers emit the read opcode driven by the pointer kind and the type
size.  Returns the new opcode buffer and the number of opcodes used.
The leading Nat of this mutual family is a recursion budget of the
embedding (the source recursion is through the expression table); a
budget exceeding the expression depth never runs out.  The larger match
arms of the source functions are factored into the named helpers of this
block, one per arm. -/
def compile_expr : Nat → Predicate → Expr → List Constr →
    Except AsmErr (List Constr × Nat)
  | 0, _, _, _ => .error .fuelOut
  | fuel + 1, pred, e, asm => do
      let old_asm_len := asm.length
      let (asm, loc) <- compile_expr_pointer fuel pred e asm
      match loc with
      | .value => do
          let (asm, _) <- compile_value_expr fuel pred e asm
          .ok (asm, asm.length - old_asm_len)
      | loc => do
          let asm <- compile_pointer_read pred e.get_ty loc asm
          .ok (asm, asm.length - old_asm_len)

/-- compile_expr_pointer from asm_gen.rs: compile and classify the
expression's Location; only pointer build-up opcodes are emitted. -/
def compile_expr_pointer : Nat → Predicate → Expr → List Constr →
    Except AsmErr (List Constr × Location)
  | 0, _, _, _ => .error .fuelOut
  | fuel + 1, pred, e, asm =>
  match e with
  | .error _ | .immediate .. | .array .. | .tuple .. | .binaryOp .. | .macroCall _
  | .intrinsicCall .. | .select .. | .cast _ | .inExpr _ | .range _ | .generator _
  | .storageAccess .. | .externalStorageAccess .. | .index .. => .ok (asm, .value)
  | .unaryOp op sub _ =>
      match op with
      | .nextState => do
          let (asm, _) <- compile_expr_pointer fuel pred sub asm
          .ok (asm, .state true)
      | _ => .ok (asm, .value)
  | .pathByName path _ => compile_path pred path asm
  | .pathByKey path _ => compile_path pred path asm
  | .tupleFieldAccess tup field _ => cep_tuple_field fuel pred tup field asm

/-- The TupleFieldAccess arm of compile_expr_pointer: adjust the tail of a
state or transient pointer by the field offset via Push and Add. -/
def cep_tuple_field : Nat → Predicate → Expr → TupleAccess → List Constr →
    Except AsmErr (List Constr × Location)
  | 0, _, _, _, _ => .error .fuelOut
  | fuel + 1, pred, tup, field, asm => do
      let (asm, location) <- compile_expr_pointer fuel pred tup asm
      match location with
      | .state _ | .transient .. =>
          match tup.get_ty with
          | .tuple fields => do
              let field_idx <- match field with
                | .index idx => pure idx
                | .name ident =>
                    match fields.findIdx? (fun f =>
                        match f.1 with
                        | some nm => nm == ident
                        | none => false) with
                    | some i => pure i
                    | none => .error .panicked
                | .error => .error .emitted
              let key_offset : Nat :=
                ((fields.take field_idx).map (fun f => f.2.storage_slots)).sum
              .ok (asm ++ [.push key_offset, .add], location)
          | _ => .error .emitted
      | .decisionVar _ => .error .panicked
      | .value => .error .panicked

/-- compile_value_expr from asm_gen.rs: compile an expression classified
as Location::Value.  Returns the new buffer and the opcode count. -/
def compile_value_expr : Nat → Predicate → Expr → List Constr →
    Except AsmErr (List Constr × Nat)
  | 0, _, _, _ => .error .fuelOut
  | fuel + 1, pred, e, asm => do
      let old_asm_len := asm.length
      let asm' <- (
        match e with
        | .immediate value _ => compile_immediate asm value
        | .array elements _ => compile_exprs fuel pred elements asm
        | .tuple fields _ => compile_expr_tuple_fields fuel pred fields asm
        | .binaryOp op lhs rhs _ => cvx_binary fuel pred op lhs rhs asm
        | .unaryOp op sub _ => cvx_unary fuel pred op sub asm
        | .storageAccess .. | .externalStorageAccess .. => .error .emitted
        | .intrinsicCall name args _ => cvx_intrinsic fuel pred name args asm
        | .select condition then_expr else_expr then_can_panic else_can_panic _ =>
            cvx_select fuel pred condition then_expr else_expr
              then_can_panic else_can_panic asm
        | .pathByName .. | .pathByKey .. | .error _ | .macroCall _ | .index ..
        | .tupleFieldAccess .. | .cast _ | .inExpr _ | .range _ | .generator _ =>
            .error .emitted)
      .ok (asm', asm'.length - old_asm_len)

/-- The BinaryOp arm of compile_value_expr: one-to-one opcodes for
arithmetic and comparisons, width-driven Eq or EqRange, and the
short-circuit insertion sequences for logical AND and OR. -/
def cvx_binary : Nat → Predicate → BinaryOp → Expr → Expr → List Constr →
    Except AsmErr (List Constr)
  | 0, _, _, _, _, _ => .error .fuelOut
  | fuel + 1, pred, op, lhs, rhs, asm => do
      let (asm, lhs_len) <- compile_expr fuel pred lhs asm
      let (asm, rhs_len) <- compile_expr fuel pred rhs asm
      match op with
      | .add => pure (asm ++ [.add])
      | .sub => pure (asm ++ [.sub])
      | .mul => pure (asm ++ [.mul])
      | .div => pure (asm ++ [.div])
      | .mod => pure (asm ++ [.mod])
      | .equal =>
          let type_size := lhs.get_ty.size
          if type_size == 1 then pure (asm ++ [.eq])
          else pure (asm ++ [.push type_size, .eqRange])
      | .notEqual => pure (asm ++ [.eq, .not])
      | .lessThanOrEqual => pure (asm ++ [.lte])
      | .lessThan => pure (asm ++ [.lt])
      | .greaterThanOrEqual => pure (asm ++ [.gte])
      | .greaterThan => pure (asm ++ [.gt])
      | .logicalAnd => do
          let lhs_position := asm.length - rhs_len - lhs_len
          let rhs_position := asm.length - rhs_len
          let asm <- vecInsert asm lhs_position (.push 0)
          let asm <- vecInsert asm (lhs_position + 1) (.push (rhs_len + 2))
          let asm <- vecInsert asm (rhs_position + 2) .not
          let asm <- vecInsert asm (rhs_position + 3) .jumpForwardIf
          let asm <- vecInsert asm (rhs_position + 4) .pop
          pure asm
      | .logicalOr => do
          let lhs_position := asm.length - rhs_len - lhs_len
          let rhs_position := asm.length - rhs_len
          let asm <- vecInsert asm lhs_position (.push 1)
          let asm <- vecInsert asm (lhs_position + 1) (.push (rhs_len + 2))
          let asm <- vecInsert asm (rhs_position + 2) .jumpForwardIf
          let asm <- vecInsert asm (rhs_position + 3) .pop
          pure asm

/-- The UnaryOp arm of compile_value_expr.  The Neg case inserts Push(0)
at position len - 1 of the buffer as emitted so far (a usize subtraction
that panics on an empty buffer), then compiles the operand and appends
Sub. -/
def cvx_unary : Nat → Predicate → UnaryOp → Expr → List Constr →
    Except AsmErr (List Constr)
  | 0, _, _, _, _ => .error .fuelOut
  | fuel + 1, pred, op, sub, asm =>
      match op with
      | .not => do
          let (asm, _) <- compile_expr fuel pred sub asm
          pure (asm ++ [.not])
      | .nextState => .error .emitted
      | .neg => do
          if asm.isEmpty then
            .error .panicked
          else do
            let asm <- vecInsert asm (asm.length - 1) (.push 0)
            let (asm, _) <- compile_expr fuel pred sub asm
            pure (asm ++ [.sub])
      | .error => .error .panicked

/-- The IntrinsicCall arm of compile_value_expr. -/
def cvx_intrinsic : Nat → Predicate → String → List Expr → List Constr →
    Except AsmErr (List Constr)
  | 0, _, _, _, _ => .error .fuelOut
  | fuel + 1, pred, name, args, asm =>
      match name with
      | "__mut_keys_len" =>
          match args with
          | [] => pure (asm ++ [.mutKeysLen])
          | _ => .error .panicked
      | "__mut_keys_contains" =>
          match args with
          | [mut_key] => do
              let mut_key_type := mut_key.get_ty
              match mut_key_type.get_array_el_type with
              | none => .error .panicked
              | some el_ty =>
                  if !el_ty.is_int then .error .panicked
                  else do
                    let (asm, _) <- compile_expr fuel pred mut_key asm
                    pure (asm ++ [.push mut_key_type.size, .mutKeysContains])
          | _ => .error .panicked
      | "__this_address" =>
          match args with
          | [] => pure (asm ++ [.thisAddress])
          | _ => .error .panicked
      | "__this_set_address" =>
          match args with
          | [] => pure (asm ++ [.thisContractAddress])
          | _ => .error .panicked
      | "__this_pathway" =>
          match args with
          | [] => pure (asm ++ [.thisPathway])
          | _ => .error .panicked
      | "__sha256" =>
          match args with
          | [data] => do
              let data_type := data.get_ty
              let (asm, _) <- compile_expr fuel pred data asm
              pure (asm ++ [.push data_type.size, .sha256])
          | _ => .error .panicked
      | "__verify_ed25519" =>
          match args with
          | [data, signature, public_key] => do
              let data_type := data.get_ty
              let signature_type := signature.get_ty
              let public_key_type := public_key.get_ty
              match signature_type.get_tuple_fields with
              | none => .error .panicked
              | some fields =>
                  match fields with
                  | [(_, f0), (_, f1)] =>
                      if !(f0.is_b256 && f1.is_b256) then .error .panicked
                      else if !public_key_type.is_b256 then .error .panicked
                      else do
                        let (asm, _) <- compile_expr fuel pred data asm
                        let asm := asm ++ [.push data_type.size]
                        let (asm, _) <- compile_expr fuel pred signature asm
                        let (asm, _) <- compile_expr fuel pred public_key asm
                        pure (asm ++ [.verifyEd25519])
                  | _ => .error .panicked
          | _ => .error .panicked
      | "__recover_secp256k1" =>
          match args with
          | [data_hash, signature] => do
              let data_hash_type := data_hash.get_ty
              let signature_type := signature.get_ty
              if !data_hash_type.is_b256 then .error .panicked
              else
                match signature_type.get_tuple_fields with
                | none => .error .panicked
                | some fields =>
                    match fields with
                    | [(_, f0), (_, f1), (_, f2)] =>
                        if !(f0.is_b256 && f1.is_b256 && f2.is_int) then .error .panicked
                        else do
                          let (asm, _) <- compile_expr fuel pred data_hash asm
                          let (asm, _) <- compile_expr fuel pred signature asm
                          pure (asm ++ [.recoverSecp256k1])
                    | _ => .error .panicked
          | _ => .error .panicked
      | "__state_len" =>
          match args with
          | [a0] => do
              let arg_ok :=
                match a0 with
                | .pathByName nm _ => pred.states.any (fun st => st.name == nm)
                | .pathByKey nm _ => pred.states.any (fun st => st.name == nm)
                | .unaryOp .nextState _ _ => true
                | _ => false
              if !arg_ok then .error .panicked
              else do
                let (asm, _) <- compile_expr fuel pred a0 asm
                match asm.getLast? with
                | some .state | some .stateRange =>
                    pure (asm.dropLast ++ [.stateLen])
                | _ => .error .panicked
          | _ => .error .panicked
      | _ => .error .emitted

/-- The Select arm of compile_value_expr: control-flow form when a branch
can panic, otherwise the Select or SelectRange opcode driven by width. -/
def cvx_select : Nat → Predicate → Expr → Expr → Expr → Bool → Bool →
    List Constr → Except AsmErr (List Constr)
  | 0, _, _, _, _, _, _, _ => .error .fuelOut
  | fuel + 1, pred, condition, then_expr, else_expr, then_can_panic,
      else_can_panic, asm =>
      if then_can_panic || else_can_panic then do
        let to_then_jump_idx := asm.length
        let asm := asm ++ [.push (-1)]
        let (asm, _) <- compile_expr fuel pred condition asm
        let asm := asm ++ [.jumpForwardIf]
        let (asm, else_size) <- compile_expr fuel pred else_expr asm
        let asm <- vecSet asm to_then_jump_idx (.push (else_size + 4))
        let to_end_jump_idx := asm.length
        let asm := asm ++ [.push (-1), .push 1, .jumpForwardIf]
        let (asm, then_size) <- compile_expr fuel pred then_expr asm
        let asm <- vecSet asm to_end_jump_idx (.push (then_size + 1))
        pure asm
      else do
        let type_size := then_expr.get_ty.size
        let (asm, _) <- compile_expr fuel pred else_expr asm
        let (asm, _) <- compile_expr fuel pred then_expr asm
        if type_size == 1 then do
          let (asm, _) <- compile_expr fuel pred condition asm
          pure (asm ++ [.select])
        else do
          let asm := asm ++ [.push type_size]
          let (asm, _) <- compile_expr fuel pred condition asm
          pure (asm ++ [.selectRange])

/-- Element-wise compilation of an array constructor's elements. -/
def compile_exprs : Nat → Predicate → List Expr → List Constr →
    Except AsmErr (List Constr)
  | 0, _, _, _ => .error .fuelOut
  | fuel + 1, pred, es, asm =>
  match es with
  | [] => .ok asm
  | el :: rest => do
      let (asm, _) <- compile_expr fuel pred el asm
      compile_exprs fuel pred rest asm

/-- Field-wise compilation of a tuple constructor's fields. -/
def compile_expr_tuple_fields : Nat → Predicate → List (Option String × Expr) →
    List Constr → Except AsmErr (List Constr)
  | 0, _, _, _ => .error .fuelOut
  | fuel + 1, pred, fs, asm =>
  match fs with
  | [] => .ok asm
  | (_, f) :: rest => do
      let (asm, _) <- compile_expr fuel pred f asm
      compile_expr_tuple_fields fuel pred rest asm

end

end Pintc

namespace Pintc

/-- The StorageAccess arm of compile_state_key: push the storage index,
and a trailing 0 placeholder for composite types. -/
def csk_storage_access (storage : List StorageVar) (name : String)
    (s_asm : List StateRead) (is_ext : Bool) :
    Except AsmErr (List StateRead × StorageKey) :=
  match storage.findIdx? (fun v => v.name == name) with
  | none => .error .panicked
  | some storage_index =>
      match storage.get? storage_index with
      | none => .error .panicked
      | some storage_var =>
          if storage_var.ty.is_any_primitive || storage_var.ty.is_map then
            .ok (s_asm ++ [.constraintOp (.push storage_index)],
                 { kind := .static [storage_index], is_external := is_ext })
          else
            .ok (s_asm ++ [.constraintOp (.push storage_index),
                           .constraintOp (.push 0)],
                 { kind := .static [storage_index, 0], is_external := is_ext })

/-- The IntrinsicCall arm of compile_state_key: the storage_get and
storage_get_extern dispatch by name suffix. -/
def csk_intrinsic (fuel : Nat) (pred : Predicate) (name : String)
    (args : List Expr) (s_asm : List StateRead) :
    Except AsmErr (List StateRead × StorageKey) :=
  if name.endsWith storage_get_str then
    match args with
    | [arg0] =>
        match arg0.get_ty.get_array_size with
        | none => .error .emitted
        | some key_size => do
            let (asm, _) <- compile_expr fuel pred arg0 []
            .ok (s_asm ++ asm.map StateRead.constraintOp,
                 { kind := .dynamic key_size.toNat, is_external := false })
    | _ => .error .panicked
  else if name.endsWith storage_get_ext_str then
    match args with
    | [arg0, arg1] =>
        match arg1.get_ty.get_array_size with
        | none => .error .emitted
        | some key_size => do
            let (asm, _) <- compile_expr fuel pred arg0 []
            let (asm, _) <- compile_expr fuel pred arg1 asm
            .ok (s_asm ++ asm.map StateRead.constraintOp,
                 { kind := .dynamic key_size.toNat, is_external := true })
    | _ => .error .panicked
  else
    .error .panicked

/-- The ExternalStorageAccess arm of compile_state_key: compile the
four-word interface-instance address, then the key as for a local access,
flagged external. -/
def csk_external (fuel : Nat) (pred : Predicate) (interface_instance : String)
    (name : String) (s_asm : List StateRead) :
    Except AsmErr (List StateRead × StorageKey) :=
  match pred.interface_instances.find? (fun i => i.name == interface_instance) with
  | none => .error .panicked
  | some inst => do
      let (addr_asm, _) <- compile_expr fuel pred inst.address []
      let s_asm := s_asm ++ addr_asm.map StateRead.constraintOp
      match pred.interfaces.find? (fun i => i.name == inst.interface) with
      | none => .error .panicked
      | some intf =>
          match intf.storage with
          | none => .error .panicked
          | some storage => csk_storage_access storage name s_asm true

/-- The TupleFieldAccess tail adjustment of compile_state_key: fold the
field offset into a static key, or emit Push and Add for a dynamic one. -/
def csk_tuple_offset (tup_ty : Ty) (field : TupleAccess)
    (s_asm : List StateRead) (storage_key : StorageKey) :
    Except AsmErr (List StateRead × StorageKey) :=
  match tup_ty with
  | .tuple fields => do
      let field_idx <- match field with
        | .index idx => pure idx
        | .name ident =>
            match fields.findIdx? (fun f =>
                match f.1 with
                | some nm => nm == ident
                | none => false) with
            | some i => pure i
            | none => .error .panicked
        | .error => .error .emitted
      let key_offset : Nat :=
        ((fields.take field_idx).map (fun f => f.2.storage_slots)).sum
      match storage_key.kind with
      | .dynamic size =>
          .ok (s_asm ++ [.constraintOp (.push key_offset), .constraintOp .add],
               { kind := .dynamic size, is_external := storage_key.is_external })
      | .static key =>
          match key.getLast? with
          | none => .error .panicked
          | some last =>
              let incremented := last + key_offset
              .ok (s_asm ++ [.constraintOp .pop, .constraintOp (.push incremented)],
                   { kind := .static (key.dropLast ++ [incremented]),
                     is_external := storage_key.is_external })
  | _ => .error .emitted

/-- compile_state_key from asm_gen.rs: emit the opcodes that leave a
storage key on the stack and track the key symbolically.  The match arms
are factored into the csk_ helpers above. -/
def compile_state_key : Nat → Predicate → Expr → List StateRead →
    Except AsmErr (List StateRead × StorageKey)
  | 0, _, _, _ => .error .fuelOut
  | fuel + 1, pred, e, s_asm =>
  let expr_ty := e.get_ty
  match e with
  | .intrinsicCall name args _ => csk_intrinsic fuel pred name args s_asm
  | .storageAccess name _ =>
      match pred.storage with
      | none => .error .panicked
      | some storage => csk_storage_access storage name s_asm false
  | .externalStorageAccess interface_instance name _ =>
      csk_external fuel pred interface_instance name s_asm
  | .index sub idx _ => do
      let (s_asm, storage_key) <- compile_state_key fuel pred sub s_asm
      let (idx_asm, _) <- compile_expr fuel pred idx []
      let s_asm := s_asm ++ idx_asm.map StateRead.constraintOp
      let key_length := storage_key.len + idx.get_ty.size
      if !(expr_ty.is_any_primitive || expr_ty.is_map) then
        .ok (s_asm ++ [.constraintOp (.push 0)],
             { kind := .dynamic (key_length + 1), is_external := storage_key.is_external })
      else
        .ok (s_asm, { kind := .dynamic key_length, is_external := storage_key.is_external })
  | .tupleFieldAccess tup field _ => do
      let (s_asm, storage_key) <- compile_state_key fuel pred tup s_asm
      csk_tuple_offset tup.get_ty field s_asm storage_key
  | _ => .error .panicked

/-- compile_state from asm_gen.rs: build the storage key, then append the
slot allocation, the key-range read and the halt terminator; the running
slot index advances by the state type's storage slots. -/
def compile_state (fuel : Nat) (pred : Predicate) (state : StateVar) (slot_idx : Nat) :
    Except AsmErr (List StateRead × Nat) := do
  let (s_asm, storage_key) <- compile_state_key fuel pred state.expr []
  let key_len :=
    match storage_key.kind with
    | .static key => key.length
    | .dynamic size => size
  let storage_slots := state.expr.get_ty.storage_slots
  let s_asm := s_asm ++
    [StateRead.constraintOp (.push storage_slots),
     StateRead.allocSlots,
     StateRead.constraintOp (.push key_len),
     StateRead.constraintOp (.push storage_slots),
     StateRead.constraintOp (.push 0),
     (if storage_key.is_external then StateRead.keyRangeExternal else StateRead.keyRange),
     StateRead.halt]
  .ok (s_asm, slot_idx + storage_slots)

/-- The directive carried by a compiled predicate (external
essential_types crate). -/
inductive Directive where
  | satisfy
  | minimize
  | maximize
deriving DecidableEq

/-- A compiled predicate.  The byte serialization of the opcode streams is
external (spec section 6, opcode sets are serialized by the VM's fixed
encoding); the streams are kept structured here. -/
structure CompiledPredicate where
  state_read : List (List StateRead)
  constraints : List (List Constr)
  directive : Directive

/-- predicate_to_asm from asm_gen.rs: compile every state read and every
constraint, collecting errors in the handler; any recorded error cancels,
otherwise the compiled predicate always carries the Satisfy directive. -/
def predicate_to_asm (fuel : Nat) (pred : Predicate) : Except AsmErr CompiledPredicate :=
  let sres := pred.states.foldl
    (fun (acc : List (List StateRead) × Nat × Bool) state =>
      match compile_state fuel pred state acc.2.1 with
      | .ok (sa, slot') => (acc.1 ++ [sa], slot', acc.2.2)
      | .error _ => (acc.1, acc.2.1, true)) ([], 0, false)
  let cres := pred.constraints.foldl
    (fun (acc : List (List Constr) × Bool) c =>
      match compile_expr fuel pred c.expr [] with
      | .ok (asm, _) => (acc.1 ++ [asm], acc.2)
      | .error _ => (acc.1, true)) ([], false)
  if sres.2.2 || cres.2 then .error .emitted
  else .ok { state_read := sres.1, constraints := cres.1, directive := .satisfy }

inductive ProgramKind where
  | stateless
  | stateful
deriving DecidableEq

/-- The flattened program handed to the assembly generator; preds is the
name-keyed predicate map in iteration order. -/
structure Program where
  kind : ProgramKind
  preds : List (String × Predicate)

/-- The root predicate's name: the empty string (CompiledProgram's
ROOT_PRED_NAME in asm_gen.rs; Program's ROOT_PRED_NAME is modelled from
the spec's nameless root predicate, 4.6). -/
def ROOT_PRED_NAME : String := ""

/-- The compiled program (salt is not used yet and stays zero). -/
structure CompiledProgram where
  kind : ProgramKind
  names : List String
  salt : Nat
  predicates : List CompiledPredicate

/-- The stateful iteration of compile_program: compile every non-root
predicate in order, pushing successes and recording failures. -/
def compile_preds (fuel : Nat) : List (String × Predicate) →
    List String × List CompiledPredicate × Bool
  | [] => ([], [], false)
  | (name, pred) :: rest =>
      if name == ROOT_PRED_NAME then compile_preds fuel rest
      else
        let r := compile_preds fuel rest
        match predicate_to_asm fuel pred with
        | .ok p => (name :: r.1, p :: r.2.1, r.2.2)
        | .error _ => (r.1, r.2.1, true)

/-- compile_program from asm_gen.rs: stateless programs compile their
single (first) predicate; stateful programs compile every predicate other
than the root; any failure cancels the whole compilation. -/
def compile_program (fuel : Nat) (program : Program) : Except AsmErr CompiledProgram :=
  match program.kind with
  | .stateless =>
      match program.preds with
      | [] => .error .panicked
      | (name, pred) :: _ =>
          match predicate_to_asm fuel pred with
          | .ok p =>
              .ok { kind := program.kind, names := [name], salt := 0, predicates := [p] }
          | .error _ => .error .emitted
  | .stateful =>
      let r := compile_preds fuel program.preds
      if r.2.2 then .error .emitted
      else .ok { kind := program.kind, names := r.1, salt := 0, predicates := r.2.1 }

end Pintc

namespace PintPkg

/-- Node indices of the plan's package graph. -/
abbrev NodeIx := Nat

/-- The driver-owned map from node index to built package. -/
abbrev BuiltPkgs (B : Type) := List (NodeIx × B)

def mapLookup {B : Type} (m : BuiltPkgs B) (n : NodeIx) : Option B :=
  (m.find? (fun e => e.1 == n)).map (fun e => e.2)

def mapInsert {B : Type} (m : BuiltPkgs B) (n : NodeIx) (b : B) : BuiltPkgs B :=
  if m.any (fun e => e.1 == n) then
    m.map (fun e => if e.1 == n then (n, b) else e)
  else
    m ++ [(n, b)]

/-- BuildError from build.rs: the partially built map together with the
package error. -/
structure BuildError (B E : Type) where
  built_pkgs : BuiltPkgs B
  pkg_err : E

/-- PlanBuilder::build_all from build.rs, from a given starting map: walk
the compilation order; each package is built against the packages built so
far (build_pkg covers parsing, type checking, flattening and codegen,
which involve external collaborators and are abstracted as a function);
the first failure returns the current map with the error. -/
def build_all_from {B E : Type} (build_pkg : NodeIx → BuiltPkgs B → Except E B) :
    List NodeIx → BuiltPkgs B → Except (BuildError B E) (BuiltPkgs B)
  | [], built_pkgs => .ok built_pkgs
  | n :: rest, built_pkgs =>
      match build_pkg n built_pkgs with
      | .ok built => build_all_from build_pkg rest (mapInsert built_pkgs n built)
      | .error e => .error ⟨built_pkgs, e⟩

/-- build_plan followed by build_all: the builder starts from the empty
map. -/
def build_all {B E : Type} (build_pkg : NodeIx → BuiltPkgs B → Except E B)
    (order : List NodeIx) : Except (BuildError B E) (BuiltPkgs B) :=
  build_all_from build_pkg order []

end PintPkg

namespace Pintc

/-- Names used by concrete witness programs. -/
def nameA : String := "a"

def nameB : String := "b"

def nameS : String := "s"

def nameX : String := "x"

/-- An empty predicate (no vars, no states, no constraints). -/
def emptyPred : Predicate :=
  { name := ROOT_PRED_NAME, vars := [], states := [], constraints := [],
    storage := none, interfaces := [], interface_instances := [],
    predicate_instances := [] }

/-- Two private bool decision variables a and b (spec scenario 5). -/
def predAB : Predicate :=
  { name := ROOT_PRED_NAME,
    vars := [{ name := nameA, is_pub := false, ty := .bool },
             { name := nameB, is_pub := false, ty := .bool }],
    states := [], constraints := [], storage := none, interfaces := [],
    interface_instances := [], predicate_instances := [] }

/-- storage block with a single int variable x and the state
s = storage::x (spec scenario 3). -/
def predStateX : Predicate :=
  { name := ROOT_PRED_NAME,
    vars := [],
    states := [{ name := nameS, expr := .storageAccess nameX .int, ty := .int }],
    constraints := [],
    storage := some [{ name := nameX, ty := .int }],
    interfaces := [], interface_instances := [], predicate_instances := [] }

end Pintc

namespace Yurtc

/-- Name used by concrete witness intents. -/
def varAName : String := "a"

/-- A one-expression intent whose only expression is the integer literal 0
(a zero array range). -/
def iiRangeZero : IntermediateIntent :=
  { exprs := ⟨1, [(0, .immediate (.int 0))]⟩, expr_types := [],
    vars := ⟨0, []⟩, var_types := [], enums := [] }

/-- A one-expression intent whose only expression is the integer literal 3. -/
def iiRangeThree : IntermediateIntent :=
  { exprs := ⟨1, [(0, .immediate (.int 3))]⟩, expr_types := [],
    vars := ⟨0, []⟩, var_types := [], enums := [] }

/-- An intent with an array variable a of size 3 and a single access
a[-1]: expression 0 is the path a, expression 1 the index literal -1,
expression 2 the access. -/
def iiAccessNeg : IntermediateIntent :=
  { exprs := ⟨3, [(0, .pathByName varAName), (1, .immediate (.int (-1))),
                  (2, .arrayElementAccess 0 1)]⟩,
    expr_types := [(0, .array (.primitive .int) 1 (some 3)),
                   (1, .primitive .int), (2, .primitive .int)],
    vars := ⟨1, [(0, ⟨varAName⟩)]⟩,
    var_types := [(0, .array (.primitive .int) 1 (some 3))],
    enums := [] }

/-- An intent with a single int variable x and a single access x[0]:
expression 0 is the path x, expression 1 the index literal 0, expression 2
the access.  No pass of the pipeline touches it, so it survives
scalarization unchanged. -/
def iiAccessInt : IntermediateIntent :=
  { exprs := ⟨3, [(0, .pathByName "x"), (1, .immediate (.int 0)),
                  (2, .arrayElementAccess 0 1)]⟩,
    expr_types := [(0, .primitive .int), (1, .primitive .int),
                   (2, .primitive .int)],
    vars := ⟨1, [(0, ⟨"x"⟩)]⟩,
    var_types := [(0, .primitive .int)],
    enums := [] }

end Yurtc

namespace Pintc

/-- Helper: a successful compile_preds run names exactly the non-root
predicates in order. -/
theorem compile_preds_names (fuel : Nat) (ps : List (String × Predicate))
    (h : (compile_preds fuel ps).2.2 = false) :
    (compile_preds fuel ps).1 =
      (ps.filter (fun np => np.1 != ROOT_PRED_NAME)).map Prod.fst := by
  induction ps with
  | nil => rfl
  | cons hd tl ih =>
      obtain ⟨name, pred⟩ := hd
      by_cases hroot : name == ROOT_PRED_NAME
      · simp only [compile_preds, hroot, if_true] at h ⊢
        have : (name != ROOT_PRED_NAME) = false := by
          simp only [bne]; rw [hroot]; rfl
        rw [List.filter_cons]
        simp only [this]
        exact ih h
      · simp only [compile_preds, hroot, if_false] at h ⊢
        have hne : (name != ROOT_PRED_NAME) = true := by
          simp only [bne]; rw [Bool.not_eq_true']; exact Bool.of_not_eq_true hroot
        rw [List.filter_cons]
        simp only [hne]
        cases hp : predicate_to_asm fuel pred with
        | ok p =>
            simp only [hp] at h ⊢
            simp [ih h]
        | error e =>
            simp only [hp] at h
            simp at h

end Pintc


/-- Reduction of the Except monad's bind on a success value. -/
theorem except_ok_bind {ε α β : Type} (a : α) (f : α → Except ε β) :
    (Except.ok a >>= f : Except ε β) = f a := rfl

/-- Reduction of the Except monad's bind on an error value. -/
theorem except_error_bind {ε α β : Type} (e : ε) (f : α → Except ε β) :
    (Except.error e >>= f : Except ε β) = Except.error e := rfl

/-- C9: for every predicate, the compiled predicate produced by
predicate_to_asm has its directive field equal to Satisfy, regardless of
the predicate's contents. -/
theorem predicate_to_asm_directive_satisfy (fuel : Nat) (pred : Pintc.Predicate)
    (cp : Pintc.CompiledPredicate) (h : Pintc.predicate_to_asm fuel pred = .ok cp) :
    cp.directive = .satisfy := by
  simp only [Pintc.predicate_to_asm] at h
  split at h
  · exact absurd h (by simp)
  · simp only [Except.ok.injEq] at h
    rw [← h]

/-- Witness for C9 at the empty predicate. -/
theorem predicate_to_asm_directive_satisfy_witness :
    Pintc.predicate_to_asm 9 Pintc.emptyPred = .ok ⟨[], [], .satisfy⟩ ∧
      (⟨[], [], .satisfy⟩ : Pintc.CompiledPredicate).directive = .satisfy :=
  ⟨rfl, predicate_to_asm_directive_satisfy 9 Pintc.emptyPred ⟨[], [], .satisfy⟩ rfl⟩

/-- C10: compile_program includes in the output of a stateful program
exactly the predicates whose name differs from the root predicate name
(the empty string), in order; the root predicate is never compiled.  For a
stateless program with its single predicate, exactly that predicate is
compiled. -/
theorem compile_program_skips_root :
    (∀ (fuel : Nat) (program : Pintc.Program) (m : Pintc.CompiledProgram),
        program.kind = .stateful →
        Pintc.compile_program fuel program = .ok m →
        m.names =
          (program.preds.filter
            (fun np => np.1 != Pintc.ROOT_PRED_NAME)).map Prod.fst) ∧
    (∀ (fuel : Nat) (name : String) (pred : Pintc.Predicate) (program : Pintc.Program)
        (m : Pintc.CompiledProgram),
        program.kind = .stateless →
        program.preds = [(name, pred)] →
        Pintc.compile_program fuel program = .ok m →
        m.names = [name]) := by
  constructor
  · intro fuel program m hkind h
    unfold Pintc.compile_program at h
    rw [hkind] at h
    simp only [] at h
    split at h
    · exact absurd h (by simp)
    · rename_i hcond
      simp only [Except.ok.injEq] at h
      rw [← h]
      exact Pintc.compile_preds_names fuel program.preds (Bool.of_not_eq_true hcond)
  · intro fuel name pred program m hkind hpreds h
    unfold Pintc.compile_program at h
    rw [hkind, hpreds] at h
    simp only [] at h
    cases hp : Pintc.predicate_to_asm fuel pred with
    | ok p =>
        rw [hp] at h
        simp only [Except.ok.injEq] at h
        rw [← h]
    | error e =>
        rw [hp] at h
        exact absurd h (by simp)

/-- Witness for C10: a stateful program with a root predicate and one
named predicate, and a stateless program with a single predicate. -/
theorem compile_program_skips_root_witness :
    ((Pintc.Program.mk .stateful
        [(Pintc.ROOT_PRED_NAME, Pintc.emptyPred), (Pintc.nameA, Pintc.predAB)]).kind
          = .stateful ∧
      Pintc.compile_program 9
        (Pintc.Program.mk .stateful
          [(Pintc.ROOT_PRED_NAME, Pintc.emptyPred), (Pintc.nameA, Pintc.predAB)]) =
        .ok ⟨.stateful, [Pintc.nameA], 0, [⟨[], [], .satisfy⟩]⟩ ∧
      [Pintc.nameA] =
        (([(Pintc.ROOT_PRED_NAME, Pintc.emptyPred),
           (Pintc.nameA, Pintc.predAB)]).filter
          (fun np => np.1 != Pintc.ROOT_PRED_NAME)).map Prod.fst) ∧
    (Pintc.compile_program 9 (Pintc.Program.mk .stateless [(Pintc.nameB, Pintc.predAB)]) =
        .ok ⟨.stateless, [Pintc.nameB], 0, [⟨[], [], .satisfy⟩]⟩ ∧
      ([Pintc.nameB] : List String) = [Pintc.nameB]) := by
  refine ⟨⟨rfl, rfl, ?_⟩, rfl, ?_⟩
  · exact compile_program_skips_root.1 9
      (Pintc.Program.mk .stateful
        [(Pintc.ROOT_PRED_NAME, Pintc.emptyPred), (Pintc.nameA, Pintc.predAB)])
      ⟨.stateful, [Pintc.nameA], 0, [⟨[], [], .satisfy⟩]⟩ rfl rfl
  · exact compile_program_skips_root.2 9 Pintc.nameB Pintc.predAB
      (Pintc.Program.mk .stateless [(Pintc.nameB, Pintc.predAB)])
      ⟨.stateless, [Pintc.nameB], 0, [⟨[], [], .satisfy⟩]⟩ rfl rfl rfl

/-- C2: for every state variable, the emitted state-read program is the
storage-key build-up followed exactly by: push of the storage-slot count
of the state expression's type, AllocSlots, push of the key length, push
of the slot count, push of base slot index 0, then KeyRange (or
KeyRangeExtern when the key is external), then Halt; the running slot
index advances by the slot count. -/
theorem compile_state_program_shape (fuel : Nat) (pred : Pintc.Predicate)
    (state : Pintc.StateVar) (slot_idx : Nat)
    (keyOps : List Pintc.StateRead) (skey : Pintc.StorageKey)
    (h : Pintc.compile_state_key fuel pred state.expr [] = .ok (keyOps, skey)) :
    Pintc.compile_state fuel pred state slot_idx =
      .ok (keyOps ++
        [.constraintOp (.push state.expr.get_ty.storage_slots),
         .allocSlots,
         .constraintOp (.push skey.len),
         .constraintOp (.push state.expr.get_ty.storage_slots),
         .constraintOp (.push 0),
         (if skey.is_external then .keyRangeExternal else .keyRange),
         .halt],
        slot_idx + state.expr.get_ty.storage_slots) := by
  unfold Pintc.compile_state
  rw [h]
  cases skey with
  | mk kind is_external =>
      cases kind <;> simp [Pintc.StorageKey.len, except_ok_bind]



namespace Pintc

/-- Helper: evaluation of compile_state_key on a direct storage access. -/
theorem storage_key_eval (fuel : Nat) (pred : Predicate) (name : String)
    (ty : Ty) (storage : List StorageVar) (idx : Nat)
    (svar : StorageVar) (s_asm : List StateRead)
    (hstorage : pred.storage = some storage)
    (hidx : storage.findIdx? (fun v => v.name == name) = some idx)
    (hvar : storage.get? idx = some svar) :
    compile_state_key (fuel + 1) pred (.storageAccess name ty) s_asm =
      .ok (if svar.ty.is_any_primitive || svar.ty.is_map then
             (s_asm ++ [.constraintOp (.push idx)],
              ⟨.static [(idx : Int)], false⟩)
           else
             (s_asm ++ [.constraintOp (.push idx), .constraintOp (.push 0)],
              ⟨.static [(idx : Int), 0], false⟩)) := by
  have hstep : compile_state_key (fuel + 1) pred (.storageAccess name ty) s_asm =
      match pred.storage with
      | none => .error .panicked
      | some storage => csk_storage_access storage name s_asm false := rfl
  rw [hstep, hstorage]
  unfold csk_storage_access
  simp only [hidx, hvar]
  split
  · rfl
  · rfl

end Pintc

/-- Witness for C2 at spec scenario 3: storage x : int with state
s = storage::x; the decoded state-read program is
Push(0) Push(1) AllocSlots Push(1) Push(1) Push(0) KeyRange Halt. -/
theorem compile_state_program_shape_witness :
    Pintc.compile_state_key 9 Pintc.predStateX (.storageAccess Pintc.nameX .int) [] =
        .ok ([.constraintOp (.push 0)], ⟨.static [0], false⟩) ∧
      Pintc.compile_state 9 Pintc.predStateX
          { name := Pintc.nameS, expr := .storageAccess Pintc.nameX .int,
            ty := Pintc.Ty.int } 0 =
        .ok ([.constraintOp (.push 0), .constraintOp (.push 1), .allocSlots,
              .constraintOp (.push 1), .constraintOp (.push 1), .constraintOp (.push 0),
              .keyRange, .halt], 1) := by
  have hkey : Pintc.compile_state_key 9 Pintc.predStateX
      (.storageAccess Pintc.nameX .int) [] =
        .ok ([.constraintOp (.push 0)], ⟨.static [0], false⟩) := by
    have h := Pintc.storage_key_eval 8 Pintc.predStateX Pintc.nameX .int
      [{ name := Pintc.nameX, ty := .int }] 0 { name := Pintc.nameX, ty := .int } []
      rfl rfl rfl
    simpa [Pintc.Ty.is_any_primitive] using h
  refine ⟨hkey, ?_⟩
  have h := compile_state_program_shape 9 Pintc.predStateX
    { name := Pintc.nameS, expr := .storageAccess Pintc.nameX .int, ty := Pintc.Ty.int }
    0 [.constraintOp (.push 0)] ⟨.static [0], false⟩ hkey
  simpa [Pintc.StorageKey.len, Pintc.Expr.get_ty, Pintc.Ty.storage_slots] using h

/-- C5: for a storage access by name with a static key, the emitted key is
exactly [idx] when the storage variable's type is primitive or map and
[idx, 0] otherwise, where idx is the variable's position in the storage
block, with the matching Push opcodes. -/
theorem compile_state_key_storage_access (fuel : Nat) (pred : Pintc.Predicate)
    (name : String)
    (ty : Pintc.Ty) (storage : List Pintc.StorageVar) (idx : Nat)
    (svar : Pintc.StorageVar) (s_asm : List Pintc.StateRead)
    (hstorage : pred.storage = some storage)
    (hidx : storage.findIdx? (fun v => v.name == name) = some idx)
    (hvar : storage.get? idx = some svar) :
    Pintc.compile_state_key (fuel + 1) pred (.storageAccess name ty) s_asm =
      .ok (if svar.ty.is_any_primitive || svar.ty.is_map then
             (s_asm ++ [.constraintOp (.push idx)],
              ⟨.static [(idx : Int)], false⟩)
           else
             (s_asm ++ [.constraintOp (.push idx), .constraintOp (.push 0)],
              ⟨.static [(idx : Int), 0], false⟩)) := by
  have hstep : Pintc.compile_state_key (fuel + 1) pred (.storageAccess name ty) s_asm =
      match pred.storage with
      | none => .error .panicked
      | some storage => Pintc.csk_storage_access storage name s_asm false := rfl
  rw [hstep, hstorage]
  unfold Pintc.csk_storage_access
  simp only [hidx, hvar]
  split
  · rfl
  · rfl

/-- Witness for C5: storage x : int accessed by name yields the static key
[0] via a single Push(0). -/
theorem compile_state_key_storage_access_witness :
    Pintc.predStateX.storage = some [{ name := Pintc.nameX, ty := .int }] ∧
      (([{ name := Pintc.nameX, ty := Pintc.Ty.int }] : List Pintc.StorageVar).findIdx?
        (fun v => v.name == Pintc.nameX)) = some 0 ∧
      Pintc.compile_state_key 9 Pintc.predStateX (.storageAccess Pintc.nameX .int) [] =
        .ok ([.constraintOp (.push 0)], ⟨.static [0], false⟩) := by
  refine ⟨rfl, rfl, ?_⟩
  have h := compile_state_key_storage_access 8 Pintc.predStateX Pintc.nameX .int
    [{ name := Pintc.nameX, ty := .int }] 0 { name := Pintc.nameX, ty := .int } []
    rfl rfl rfl
  simpa [Pintc.Ty.is_any_primitive] using h

/-- Inserting at a position equal to the length of a prefix puts the
element exactly between prefix and suffix. -/
theorem insertIdx_eq_append {α : Type} (xs ys : List α) (a : α) (n : Nat)
    (h : n = xs.length) : (xs ++ ys).insertIdx n a = xs ++ a :: ys := by
  subst h
  induction xs with
  | nil => rfl
  | cons x xs ih => simpa [List.insertIdx_succ_cons] using ih

/-- C3: for every conjunction lhs && rhs compiled to constraint opcodes,
with the lhs compiling to the opcode list lops appended to the buffer and
the rhs to rops, the emitted sequence is exactly
Push(0); Push(R+2); lhs; Not; JumpForwardIf; Pop; rhs where R is the
length of rops, and the opcode count is L + R + 5.  The fuel arguments
are the recursion budget of the embedded compiler: the operands compile
under budget f and the conjunction under budget f + 3. -/
theorem compile_logical_and_short_circuit (f : Nat) (pred : Pintc.Predicate)
    (ty : Pintc.Ty) (lhs rhs : Pintc.Expr) (asm lops rops : List Pintc.Constr)
    (hl : Pintc.compile_expr f pred lhs asm = .ok (asm ++ lops, lops.length))
    (hr : Pintc.compile_expr f pred rhs (asm ++ lops) =
      .ok (asm ++ lops ++ rops, rops.length)) :
    Pintc.compile_expr (f + 3) pred (.binaryOp .logicalAnd lhs rhs ty) asm =
      .ok (asm ++ [.push 0, .push ((rops.length : Int) + 2)] ++ lops ++
            [.not, .jumpForwardIf, .pop] ++ rops,
           lops.length + rops.length + 5) := by
  have hcvx : Pintc.cvx_binary (f + 1) pred .logicalAnd lhs rhs asm =
      .ok (asm ++ [.push 0, .push ((rops.length : Int) + 2)] ++ lops ++
            [.not, .jumpForwardIf, .pop] ++ rops) := by
    have hstep : Pintc.cvx_binary (f + 1) pred .logicalAnd lhs rhs asm =
        (do
          let (asm, lhs_len) <- Pintc.compile_expr f pred lhs asm
          let (asm, rhs_len) <- Pintc.compile_expr f pred rhs asm
          (do
            let lhs_position := asm.length - rhs_len - lhs_len
            let rhs_position := asm.length - rhs_len
            let asm <- Pintc.vecInsert asm lhs_position (.push 0)
            let asm <- Pintc.vecInsert asm (lhs_position + 1) (.push (rhs_len + 2))
            let asm <- Pintc.vecInsert asm (rhs_position + 2) .not
            let asm <- Pintc.vecInsert asm (rhs_position + 3) .jumpForwardIf
            let asm <- Pintc.vecInsert asm (rhs_position + 4) .pop
            pure asm)) := rfl
    rw [hstep, hl, except_ok_bind]
    dsimp only
    rw [hr, except_ok_bind]
    dsimp only
    have hpos1 : (asm ++ lops ++ rops).length - rops.length - lops.length = asm.length := by
      simp; try omega
    have hpos2 : (asm ++ lops ++ rops).length - rops.length = asm.length + lops.length := by
      simp; try omega
    rw [hpos1, hpos2]
    rw [show Pintc.vecInsert (asm ++ lops ++ rops) asm.length (Pintc.Constr.push 0) =
        .ok (asm ++ .push 0 :: (lops ++ rops)) from by
      rw [Pintc.vecInsert, if_pos (by simp)]
      rw [List.append_assoc]
      rw [insertIdx_eq_append asm (lops ++ rops) _ _ rfl], except_ok_bind]
    rw [show Pintc.vecInsert (asm ++ .push 0 :: (lops ++ rops)) (asm.length + 1)
          (Pintc.Constr.push ((rops.length : Int) + 2)) =
        .ok ((asm ++ [.push 0]) ++ .push ((rops.length : Int) + 2) :: (lops ++ rops)) from by
      rw [Pintc.vecInsert, if_pos (by simp; try omega)]
      rw [show asm ++ Pintc.Constr.push 0 :: (lops ++ rops) =
          (asm ++ [.push 0]) ++ (lops ++ rops) from by simp]
      rw [insertIdx_eq_append (asm ++ [Pintc.Constr.push 0]) (lops ++ rops)
        (Pintc.Constr.push ((rops.length : Int) + 2)) (asm.length + 1) (by simp)],
      except_ok_bind]
    rw [show Pintc.vecInsert ((asm ++ [.push 0]) ++
          Pintc.Constr.push ((rops.length : Int) + 2) :: (lops ++ rops))
          (asm.length + lops.length + 2) Pintc.Constr.not =
        .ok ((asm ++ [.push 0, .push ((rops.length : Int) + 2)] ++ lops) ++
          .not :: rops) from by
      rw [Pintc.vecInsert, if_pos (by simp; try omega)]
      rw [show (asm ++ [Pintc.Constr.push 0]) ++
          Pintc.Constr.push ((rops.length : Int) + 2) :: (lops ++ rops) =
          (asm ++ [.push 0, .push ((rops.length : Int) + 2)] ++ lops) ++ rops from by simp]
      rw [insertIdx_eq_append
        (asm ++ [Pintc.Constr.push 0, Pintc.Constr.push ((rops.length : Int) + 2)] ++ lops)
        rops Pintc.Constr.not (asm.length + lops.length + 2) (by simp; try omega)],
      except_ok_bind]
    rw [show Pintc.vecInsert ((asm ++ [.push 0, .push ((rops.length : Int) + 2)] ++ lops) ++
          Pintc.Constr.not :: rops) (asm.length + lops.length + 3)
          Pintc.Constr.jumpForwardIf =
        .ok ((asm ++ [.push 0, .push ((rops.length : Int) + 2)] ++ lops ++ [.not]) ++
          .jumpForwardIf :: rops) from by
      rw [Pintc.vecInsert, if_pos (by simp; try omega)]
      rw [show (asm ++ [Pintc.Constr.push 0, Pintc.Constr.push ((rops.length : Int) + 2)] ++ lops) ++
          Pintc.Constr.not :: rops =
          (asm ++ [.push 0, .push ((rops.length : Int) + 2)] ++ lops ++ [.not]) ++ rops from by simp]
      rw [insertIdx_eq_append
        (asm ++ [Pintc.Constr.push 0, Pintc.Constr.push ((rops.length : Int) + 2)] ++ lops ++
          [Pintc.Constr.not]) rops
        Pintc.Constr.jumpForwardIf (asm.length + lops.length + 3)
        (by simp; try omega)], except_ok_bind]
    rw [show Pintc.vecInsert
          ((asm ++ [.push 0, .push ((rops.length : Int) + 2)] ++ lops ++ [.not]) ++
            Pintc.Constr.jumpForwardIf :: rops)
          (asm.length + lops.length + 4) Pintc.Constr.pop =
        .ok ((asm ++ [.push 0, .push ((rops.length : Int) + 2)] ++ lops ++
            [.not, .jumpForwardIf]) ++ .pop :: rops) from by
      rw [Pintc.vecInsert, if_pos (by simp; try omega)]
      rw [show (asm ++ [Pintc.Constr.push 0, Pintc.Constr.push ((rops.length : Int) + 2)] ++ lops ++
          [Pintc.Constr.not]) ++ Pintc.Constr.jumpForwardIf :: rops =
          (asm ++ [.push 0, .push ((rops.length : Int) + 2)] ++ lops ++
            [.not, .jumpForwardIf]) ++ rops from by simp]
      rw [insertIdx_eq_append
        (asm ++ [Pintc.Constr.push 0, Pintc.Constr.push ((rops.length : Int) + 2)] ++ lops ++
          [Pintc.Constr.not, Pintc.Constr.jumpForwardIf])
        rops Pintc.Constr.pop (asm.length + lops.length + 4)
        (by simp; try omega)], except_ok_bind]
    simp
    try rfl
  have hval : Pintc.compile_value_expr (f + 2) pred
      (.binaryOp .logicalAnd lhs rhs ty) asm =
      .ok (asm ++ [.push 0, .push ((rops.length : Int) + 2)] ++ lops ++
            [.not, .jumpForwardIf, .pop] ++ rops,
           lops.length + rops.length + 5) := by
    have hstep : Pintc.compile_value_expr (f + 2) pred
        (.binaryOp .logicalAnd lhs rhs ty) asm =
        (do
          let asm' <- Pintc.cvx_binary (f + 1) pred .logicalAnd lhs rhs asm
          .ok (asm', asm'.length - asm.length)) := rfl
    rw [hstep, hcvx, except_ok_bind]
    simp
    omega
  have hstep : Pintc.compile_expr (f + 3) pred (.binaryOp .logicalAnd lhs rhs ty) asm =
      (do
        let (asm', _) <- Pintc.compile_value_expr (f + 2) pred
          (.binaryOp .logicalAnd lhs rhs ty) asm
        .ok (asm', asm'.length - asm.length)) := rfl
  rw [hstep, hval, except_ok_bind]
  simp
  omega

/-- Witness for C3 at spec scenario 5: constraint a && b over two private
bool vars compiles to
Push(0) Push(4) Push(0) DecisionVar Not JumpForwardIf Pop Push(1) DecisionVar. -/
theorem compile_logical_and_short_circuit_witness :
    Pintc.compile_expr 2 Pintc.predAB (.pathByName Pintc.nameA .bool) [] =
        .ok ([] ++ [.push 0, .decisionVar], 2) ∧
      Pintc.compile_expr 2 Pintc.predAB (.pathByName Pintc.nameB .bool)
          ([] ++ [.push 0, .decisionVar]) =
        .ok ([] ++ [.push 0, .decisionVar] ++ [.push 1, .decisionVar], 2) ∧
      Pintc.compile_expr 5 Pintc.predAB
          (.binaryOp .logicalAnd (.pathByName Pintc.nameA .bool)
            (.pathByName Pintc.nameB .bool) .bool) [] =
        .ok ([.push 0, .push 4, .push 0, .decisionVar, .not, .jumpForwardIf, .pop,
              .push 1, .decisionVar], 9) := by
  refine ⟨rfl, rfl, ?_⟩
  have h := compile_logical_and_short_circuit 2 Pintc.predAB .bool
    (.pathByName Pintc.nameA .bool) (.pathByName Pintc.nameB .bool)
    [] [.push 0, .decisionVar] [.push 1, .decisionVar] rfl rfl
  simpa using h

/-- C4 (code bug): arithmetic negation -e is intended to emit
Push(0); e opcodes; Sub with the Push(0) immediately before e's opcodes
(both the spec and the source comment say so), but the source inserts the
Push(0) at index len - 1 of the buffer emitted so far: with prior
opcodes present the Push(0) lands before the previously emitted last
opcode, and with an empty buffer the usize subtraction panics.  Compiling
5 == -3 shows the misplacement: the Push(0) precedes Push(5) (the lhs!)
instead of Push(3). -/
theorem compile_neg_misplaces_push_zero :
    Pintc.compile_expr 9 Pintc.emptyPred
        (.binaryOp .equal (.immediate (.int 5) .int)
          (.unaryOp .neg (.immediate (.int 3) .int) .int) .bool) [] =
      .ok ([.push 0, .push 5, .push 3, .sub, .eq], 5) ∧
    Pintc.compile_expr 9 Pintc.emptyPred
        (.unaryOp .neg (.immediate (.int 3) .int) .int) [] = .error .panicked ∧
    ([Pintc.Constr.push 0, .push 5, .push 3, .sub] : List Pintc.Constr) ≠
      [Pintc.Constr.push 5] ++ [Pintc.Constr.push 0] ++ [Pintc.Constr.push 3] ++
        [Pintc.Constr.sub] := by
  refine ⟨rfl, rfl, ?_⟩
  decide

namespace PintPkg

/-- If no entry has the key, find? fails. -/
theorem find?_none_of_any_false {B : Type} (m : List (NodeIx × B)) (n : NodeIx)
    (h : m.any (fun e => e.1 == n) = false) :
    m.find? (fun e => e.1 == n) = none := by
  induction m with
  | nil => rfl
  | cons hd tl ih =>
      simp only [List.any_cons, Bool.or_eq_false_iff] at h
      simp only [List.find?_cons, h.1]
      exact ih h.2

/-- Replacing the value at one key leaves lookups of other keys alone. -/
theorem find?_map_replace {B : Type} (tl : List (NodeIx × B)) (n k : NodeIx) (b : B)
    (hk : ¬ k = n) :
    (tl.map (fun e => if e.1 == n then (n, b) else e)).find? (fun e => e.1 == k) =
      tl.find? (fun e => e.1 == k) := by
  induction tl with
  | nil => rfl
  | cons hd tl ih =>
      simp only [List.map_cons]
      by_cases he : hd.1 = n
      · have h2 : (n == k) = false := by
          rw [beq_eq_false_iff_ne]
          exact fun h => hk h.symm
        have h3 : (hd.1 == k) = false := by
          rw [beq_eq_false_iff_ne]
          exact fun h => hk (he ▸ h).symm
        simp only [he, beq_self_eq_true, if_true, List.find?_cons, h2, h3]
        exact ih
      · have h1 : (hd.1 == n) = false := by
          rw [beq_eq_false_iff_ne]
          exact he
        simp only [h1, Bool.false_eq_true, if_false, List.find?_cons]
        cases hhd : (hd.1 == k) with
        | true => rfl
        | false => exact ih

/-- Lookup after insert: the inserted key maps to the new value, all other
keys are unchanged. -/
theorem mapLookup_mapInsert {B : Type} (m : BuiltPkgs B) (n : NodeIx) (b : B)
    (k : NodeIx) :
    mapLookup (mapInsert m n b) k = if k = n then some b else mapLookup m k := by
  induction m with
  | nil =>
      by_cases hk : k = n
      · simp [mapInsert, mapLookup, hk]
      · have h1 : (n == k) = false := by
          rw [beq_eq_false_iff_ne]
          exact fun h => hk h.symm
        simp [mapInsert, mapLookup, hk, h1, List.find?_cons]
  | cons hd tl ih =>
      by_cases hp : hd.1 = n
      · have hany : (hd :: tl).any (fun e => e.1 == n) = true := by
          simp [List.any_cons, hp]
        by_cases hk : k = n
        · subst hk
          simp [mapInsert, hany, mapLookup, List.map_cons, hp, List.find?_cons]
        · have h3 : (n == k) = false := by
            rw [beq_eq_false_iff_ne]
            exact fun h => hk h.symm
          have h4 : (hd.1 == k) = false := by
            rw [beq_eq_false_iff_ne]
            exact fun h => hk (hp ▸ h).symm
          simp only [mapInsert, hany, if_true, List.map_cons, hp, beq_self_eq_true,
            mapLookup, List.find?_cons, h3, h4, if_neg hk]
          rw [find?_map_replace tl n k b hk]
      · have h1 : (hd.1 == n) = false := by
          rw [beq_eq_false_iff_ne]
          exact hp
        have ihx := ih
        simp only [mapInsert, List.any_cons, h1, Bool.false_or] at ihx ⊢
        by_cases hk : k = hd.1
        · have h2 : (hd.1 == k) = true := by simp [hk]
          have h3 : ¬ k = n := fun h => hp (hk ▸ h)
          cases hany : tl.any (fun e => e.1 == n) with
          | true =>
              simp only [hany, if_true, List.map_cons, h1, Bool.false_eq_true, if_false,
                mapLookup, List.find?_cons, h2, if_neg h3]
          | false =>
              simp only [hany, Bool.false_eq_true, if_false, List.cons_append, mapLookup,
                List.find?_cons, h2, if_neg h3]
        · have h2 : (hd.1 == k) = false := by
            rw [beq_eq_false_iff_ne]
            exact fun h => hk h.symm
          cases hany : tl.any (fun e => e.1 == n) with
          | true =>
              simp only [hany, if_true] at ihx
              simp only [hany, if_true, List.map_cons, h1, Bool.false_eq_true, if_false,
                mapLookup, List.find?_cons, h2]
              simp only [mapLookup] at ihx
              exact ihx
          | false =>
              simp only [hany, Bool.false_eq_true, if_false] at ihx
              simp only [hany, Bool.false_eq_true, if_false, List.cons_append, mapLookup,
                List.find?_cons, h2]
              simp only [mapLookup] at ihx
              exact ihx

/-- Running the driver over a prefix that fully succeeds and then more
packages continues from the accumulated map. -/
theorem build_all_from_append {B E : Type}
    (build_pkg : NodeIx → BuiltPkgs B → Except E B) (pre : List NodeIx) :
    ∀ (rest : List NodeIx) (acc m : BuiltPkgs B),
    build_all_from build_pkg pre acc = .ok m →
    build_all_from build_pkg (pre ++ rest) acc = build_all_from build_pkg rest m := by
  induction pre with
  | nil =>
      intro rest acc m h
      simp only [build_all_from, Except.ok.injEq] at h
      subst h
      rfl
  | cons n pre ih =>
      intro rest acc m h
      simp only [build_all_from] at h ⊢
      cases hb : build_pkg n acc with
      | ok b =>
          rw [hb] at h
          exact ih rest (mapInsert acc n b) m h
      | error e =>
          rw [hb] at h
          exact absurd h (by simp)

/-- A successful full run populates exactly the keys of the compilation
order beyond those already present. -/
theorem build_all_from_keys {B E : Type}
    (build_pkg : NodeIx → BuiltPkgs B → Except E B) (order : List NodeIx) :
    ∀ (acc m : BuiltPkgs B),
    build_all_from build_pkg order acc = .ok m →
    ∀ k, (mapLookup m k).isSome = true ↔
      ((mapLookup acc k).isSome = true ∨ k ∈ order) := by
  induction order with
  | nil =>
      intro acc m h k
      simp only [build_all_from, Except.ok.injEq] at h
      subst h
      simp
  | cons n order ih =>
      intro acc m h k
      simp only [build_all_from] at h
      cases hb : build_pkg n acc with
      | ok b =>
          rw [hb] at h
          have := ih (mapInsert acc n b) m h k
          rw [this]
          rw [mapLookup_mapInsert]
          by_cases hk : k = n
          · simp [hk]
          · simp [hk, List.mem_cons]
      | error e =>
          rw [hb] at h
          exact absurd h (by simp)

end PintPkg

/-- C8: the plan driver stops at the first package whose build fails,
returning that package's error together with the map of everything
successfully built before it; packages after the failure are never built
(the result does not depend on the rest of the order).  On an all-success
run it returns the complete map: exactly the packages of the compilation
order. -/
theorem build_all_fail_fast :
    (∀ (B E : Type) (build_pkg : PintPkg.NodeIx → PintPkg.BuiltPkgs B → Except E B)
        (pre : List PintPkg.NodeIx) (n : PintPkg.NodeIx) (post : List PintPkg.NodeIx)
        (m : PintPkg.BuiltPkgs B) (e : E),
        PintPkg.build_all build_pkg pre = .ok m →
        build_pkg n m = .error e →
        PintPkg.build_all build_pkg (pre ++ n :: post) = .error ⟨m, e⟩) ∧
    (∀ (B E : Type) (build_pkg : PintPkg.NodeIx → PintPkg.BuiltPkgs B → Except E B)
        (order : List PintPkg.NodeIx) (m : PintPkg.BuiltPkgs B),
        PintPkg.build_all build_pkg order = .ok m →
        ∀ k, (PintPkg.mapLookup m k).isSome = true ↔ k ∈ order) := by
  constructor
  · intro B E build_pkg pre n post m e hpre hfail
    unfold PintPkg.build_all at hpre ⊢
    rw [PintPkg.build_all_from_append build_pkg pre (n :: post) [] m hpre]
    simp only [PintPkg.build_all_from]
    rw [hfail]
  · intro B E build_pkg order m h k
    have := PintPkg.build_all_from_keys build_pkg order [] m h k
    rw [this]
    simp [PintPkg.mapLookup]

/-- Witness for C8: a two-package order where the second build fails
returns the first package's map with the error, and a fully successful
order returns both packages. -/
theorem build_all_fail_fast_witness :
    (PintPkg.build_all
        (fun n (_ : PintPkg.BuiltPkgs Nat) =>
          if n == 1 then (.error 7 : Except Nat Nat) else .ok (n * 10))
        ([0] ++ 1 :: [2]) = .error ⟨[(0, 0)], 7⟩) ∧
      (PintPkg.build_all
        (fun n (_ : PintPkg.BuiltPkgs Nat) => (.ok (n * 10) : Except Nat Nat))
        [0, 1] = .ok [(0, 0), (1, 10)]) ∧
      ((PintPkg.mapLookup [(0, 0), (1, 10)] 1).isSome = true ↔ 1 ∈ [0, 1]) := by
  refine ⟨?_, rfl, ?_⟩
  · exact build_all_fail_fast.1 Nat Nat _ [0] 1 [2] [(0, 0)] 7 rfl rfl
  · exact build_all_fail_fast.2 Nat Nat
      (fun n _ => (.ok (n * 10) : Except Nat Nat)) [0, 1] [(0, 0), (1, 10)] rfl 1

/-- C6 (amended): in fix_array_size, for an element type that is int,
real or bool and a range expression that evaluates at compile time to an
integer n, the pass succeeds and stores n as the resolved size exactly
when n is positive; n = 0 (or negative) fails with
InvalidConstArrayLength. -/
theorem fix_array_size_positive_only (ii : Yurtc.IntermediateIntent)
    (el_ty : Yurtc.Ty) (rk : Yurtc.ExprKey) (re : Yurtc.Expr) (n : Int)
    (hel : (el_ty.is_int || el_ty.is_real || el_ty.is_bool) = true)
    (hget : ii.exprs.get rk = some re)
    (heval : re.evaluate ii = .ok (.int n)) :
    (0 < n → Yurtc.fix_array_size ii el_ty rk = .ok (.array el_ty rk (some n))) ∧
      (n ≤ 0 →
        Yurtc.fix_array_size ii el_ty rk = .error .invalidConstArrayLength) := by
  have ha : el_ty.is_array = false := by
    cases el_ty <;>
      simp_all [Yurtc.Ty.is_array, Yurtc.Ty.is_int, Yurtc.Ty.is_real, Yurtc.Ty.is_bool]
  have h0 : Yurtc.fix_array_size ii el_ty rk =
      Yurtc.fix_array_sizeF (el_ty.tsize + 1) ii el_ty rk := rfl
  rw [h0]
  unfold Yurtc.fix_array_sizeF
  rw [ha]
  simp only [hel, Bool.false_or, Bool.not_true, Bool.false_eq_true, if_false, hget]
  cases re with
  | pathByName p =>
      exact absurd heval (by simp [Yurtc.Expr.evaluate, Yurtc.evaluateF])
  | _ =>
      rw [heval]
      refine ⟨fun hpos => by simp [hpos], fun hneg => ?_⟩
      have hnot : ¬ (0 < n) := by omega
      simp [hnot]

/-- Counterexample for C6 as stated: a range evaluating to the
non-negative integer 0 does not succeed; it fails with
InvalidConstArrayLength (the code accepts only strictly positive sizes,
and the spec's own boundary section says zero-element arrays are
rejected). -/
theorem fix_array_size_zero_counterexample :
    Yurtc.iiRangeZero.exprs.get 0 = some (.immediate (.int 0)) ∧
      Yurtc.Expr.evaluate Yurtc.iiRangeZero (.immediate (.int 0)) = .ok (.int 0) ∧
      Yurtc.fix_array_size Yurtc.iiRangeZero (.primitive .int) 0 =
        .error .invalidConstArrayLength :=
  ⟨rfl, rfl, rfl⟩

/-- Witness for C6 at a positive size: a range literal 3 resolves to size 3. -/
theorem fix_array_size_positive_only_witness :
    Yurtc.iiRangeThree.exprs.get 0 = some (.immediate (.int 3)) ∧
      Yurtc.Expr.evaluate Yurtc.iiRangeThree (.immediate (.int 3)) = .ok (.int 3) ∧
      Yurtc.fix_array_size Yurtc.iiRangeThree (.primitive .int) 0 =
        .ok (.array (.primitive .int) 0 (some 3)) := by
  refine ⟨rfl, rfl, ?_⟩
  exact (fix_array_size_positive_only Yurtc.iiRangeThree (.primitive .int) 0
    (.immediate (.int 3)) 3 rfl rfl rfl).1 (by omega)

/-- C7: during array scalarization, an access into an array variable of
resolved size N whose index evaluates to an integer i with i < 0 or
i >= N fails with ArrayIndexOutOfBounds; an index evaluating to a
non-integer immediate fails with InvalidConstArrayIndex; a
non-compile-time-evaluable index fails with NonConstArrayIndex. -/
theorem scalarize_array_access_errors (ii : Yurtc.IntermediateIntent)
    (name : String) (vkey : Yurtc.VarKey) (N : Int) (el_ty : Yurtc.Ty)
    (new_keys : List Yurtc.VarKey) (ak ik : Yurtc.ExprKey) (ie : Yurtc.Expr)
    (hgather : Yurtc.gather_array_accesses ii name vkey = .ok [(ak, ik)])
    (hget : ii.exprs.get ik = some ie) :
    (∀ i : Int, ie.evaluate ii = .ok (.int i) → (i < 0 ∨ N ≤ i) →
        Yurtc.scalarize_array_access ii name vkey N el_ty new_keys =
          .error .arrayIndexOutOfBounds) ∧
      (∀ v : Yurtc.Imm, ie.evaluate ii = .ok v → (∀ i : Int, v ≠ .int i) →
        Yurtc.scalarize_array_access ii name vkey N el_ty new_keys =
          .error .invalidConstArrayIndex) ∧
      (∀ err, ie.evaluate ii = .error err →
        Yurtc.scalarize_array_access ii name vkey N el_ty new_keys =
          .error .nonConstArrayIndex) := by
  unfold Yurtc.scalarize_array_access
  rw [hgather, except_ok_bind]
  simp only [List.foldlM_cons, List.foldlM_nil]
  rw [hget]
  dsimp only
  refine ⟨?_, ?_, ?_⟩
  · intro i hi hrange
    rw [hi]
    have hcond : (decide (i < 0) || decide (N ≤ i)) = true := by
      rcases hrange with h | h <;> simp [h]
    simp only [hcond, if_true, except_error_bind]
  · intro v hv hvi
    rw [hv]
    cases v with
    | int i => exact absurd rfl (hvi i)
    | real => simp [except_error_bind]
    | bool b => simp [except_error_bind]
    | string st => simp [except_error_bind]
  · intro err herr
    rw [herr]
    simp [except_error_bind]

/-- Witness for C7: the access a[-1] into the size-3 array variable a
fails with ArrayIndexOutOfBounds. -/
theorem scalarize_array_access_errors_witness :
    Yurtc.gather_array_accesses Yurtc.iiAccessNeg Yurtc.varAName 0 = .ok [(2, 1)] ∧
      Yurtc.iiAccessNeg.exprs.get 1 = some (.immediate (.int (-1))) ∧
      Yurtc.Expr.evaluate Yurtc.iiAccessNeg (.immediate (.int (-1))) =
        .ok (.int (-1)) ∧
      Yurtc.scalarize_array_access Yurtc.iiAccessNeg Yurtc.varAName 0 3
          (.primitive .int) [] = .error .arrayIndexOutOfBounds := by
  refine ⟨rfl, rfl, rfl, ?_⟩
  exact (scalarize_array_access_errors Yurtc.iiAccessNeg Yurtc.varAName 0 3
    (.primitive .int) [] 2 1 (.immediate (.int (-1))) rfl rfl).1 (-1) rfl
    (Or.inl (by omega))

namespace Yurtc

/-- A bounded iterate! run that succeeds ends at a state which some final
step produced together with a no-further-modification report. -/
theorem iterateFix_last {σ : Type} (step : σ → Except CompileError (Bool × σ))
    (fuel : Nat) :
    ∀ (s : σ) (b : Bool) (s' : σ),
      iterateFix step fuel s = .ok (b, s') → ∃ s₀, step s₀ = .ok (false, s') := by
  induction fuel with
  | zero => intro s b s' h; exact absurd h (by simp [iterateFix])
  | succ fuel ih =>
      intro s b s' h
      unfold iterateFix at h
      cases h1 : step s with
      | error e => rw [h1, except_error_bind] at h; exact absurd h (by simp)
      | ok p =>
          rw [h1, except_ok_bind] at h
          obtain ⟨again, s₁⟩ := p
          dsimp only at h
          cases again with
          | false =>
              rw [if_neg (by simp)] at h
              simp only [Except.ok.injEq, Prod.mk.injEq] at h
              exact ⟨s, by rw [h1, h.2]⟩
          | true =>
              rw [if_pos rfl] at h
              cases h2 : iterateFix step fuel s₁ with
              | error e => rw [h2, except_error_bind] at h; exact absurd h (by simp)
              | ok q =>
                  rw [h2, except_ok_bind] at h
                  obtain ⟨b₂, s₂⟩ := q
                  dsimp only at h
                  simp only [Except.ok.injEq, Prod.mk.injEq] at h
                  obtain ⟨s₀, hs⟩ := ih s₁ b₂ s₂ h2
                  exact ⟨s₀, by rw [hs, h.2]⟩

/-- A bounded iterate! run reporting no modification is a single step
reporting no modification. -/
theorem iterateFix_false {σ : Type} (step : σ → Except CompileError (Bool × σ))
    (fuel : Nat) (s s' : σ)
    (h : iterateFix step fuel s = .ok (false, s')) : step s = .ok (false, s') := by
  match fuel with
  | 0 => exact absurd h (by simp [iterateFix])
  | fuel + 1 =>
      unfold iterateFix at h
      cases h1 : step s with
      | error e => rw [h1, except_error_bind] at h; exact absurd h (by simp)
      | ok p =>
          rw [h1, except_ok_bind] at h
          obtain ⟨again, s₁⟩ := p
          dsimp only at h
          cases again with
          | false =>
              rw [if_neg (by simp)] at h
              simp only [Except.ok.injEq, Prod.mk.injEq] at h
              rw [h.2]
          | true =>
              rw [if_pos rfl] at h
              cases h2 : iterateFix step fuel s₁ with
              | error e => rw [h2, except_error_bind] at h; exact absurd h (by simp)
              | ok q =>
                  rw [h2, except_ok_bind] at h
                  obtain ⟨b₂, s₂⟩ := q
                  dsimp only at h
                  simp at h

/-- A no-modification run of lower_tuple_compares leaves the intent
unchanged. -/
theorem lower_tuple_compares_false (ii ii' : IntermediateIntent)
    (h : lower_tuple_compares ii = .ok (false, ii')) : ii' = ii := by
  unfold lower_tuple_compares at h
  cases hg : gather_tuple_compares ii with
  | error e => rw [hg, except_error_bind] at h; exact absurd h (by simp)
  | ok ops =>
      rw [hg, except_ok_bind] at h
      cases ops with
      | nil =>
          simp only [List.foldlM_nil] at h
          simp only [pure_bind] at h
          simp only [List.isEmpty_nil, Bool.not_true, Except.ok.injEq,
            Prod.mk.injEq] at h
          exact h.2.symm
      | cons c cs =>
          dsimp only at h
          cases hf : (c :: cs).foldlM lower_one_tuple_compare ii with
          | error e => rw [hf, except_error_bind] at h; exact absurd h (by simp)
          | ok ii₂ =>
              rw [hf, except_ok_bind] at h
              simp at h

/-- A generic contradiction: binding into a continuation that never
produces a `false`-tagged success cannot produce one. -/
theorem except_bind_ok_false {ε σ τ : Type} (x : Except ε σ)
    (f : σ → Except ε (Bool × τ)) (b : τ)
    (h : (x >>= f) = .ok (false, b)) (hf : ∀ a c, f a ≠ .ok (false, c)) :
    False := by
  cases x with
  | error e => rw [except_error_bind] at h; simp at h
  | ok a => rw [except_ok_bind] at h; exact hf a b h

/-- A no-modification run of split_tuple_vars leaves the intent unchanged
and gathered nothing new. -/
theorem split_tuple_vars_false (ii ii' : IntermediateIntent)
    (old old2 : List VarKey)
    (h : split_tuple_vars ii old = .ok (false, ii', old2)) :
    ii' = ii ∧ gather_tuple_vars ii old = .ok ([], old2) := by
  unfold split_tuple_vars at h
  cases hg : gather_tuple_vars ii old with
  | error e => rw [hg, except_error_bind] at h; exact absurd h (by simp)
  | ok g =>
      rw [hg, except_ok_bind] at h
      obtain ⟨gl, go⟩ := g
      dsimp only at h
      cases gl with
      | nil =>
          simp only [List.isEmpty_nil, if_true] at h
          simp only [Except.ok.injEq, Prod.mk.injEq] at h
          exact ⟨h.2.1.symm, by rw [h.2.2]⟩
      | cons n ns =>
          simp only [List.isEmpty_cons, Bool.false_eq_true, if_false] at h
          exact (except_bind_ok_false _ _ _ h (fun a c => by simp)).elim

end Yurtc

namespace Yurtc

/-- A no-modification run of scalarize_array leaves the intent unchanged,
and happens exactly when no variable's type is an array type. -/
theorem scalarize_array_false (t ii₁ : IntermediateIntent)
    (h : scalarize_array t = .ok (false, ii₁)) :
    ii₁ = t ∧ ∀ e ∈ t.var_types, get_array_params e.2 = none := by
  unfold scalarize_array at h
  cases hf : t.var_types.findSome? (fun e =>
      (get_array_params e.2).map (fun p => (e.1, p.1, p.2.2))) with
  | none =>
      rw [hf] at h
      simp only [Except.ok.injEq, Prod.mk.injEq] at h
      refine ⟨h.2.symm, ?_⟩
      intro e he
      have := List.findSome?_eq_none_iff.mp hf e he
      exact Option.map_eq_none'.mp this
  | some trip =>
      obtain ⟨avk, el_ty, opt_size⟩ := trip
      rw [hf] at h
      dsimp only at h
      exfalso
      cases opt_size with
      | none => dsimp only at h; rw [except_error_bind] at h; simp at h
      | some sz =>
          dsimp only at h
          simp only [pure_bind] at h
          cases hv : t.vars.get avk with
          | none => rw [hv, except_error_bind] at h; simp at h
          | some var =>
              rw [hv] at h
              simp only [pure_bind] at h
              exact except_bind_ok_false _ _ _ h (fun a c => by simp)

/-- One step of the split gather: the accumulator keys only grow, and the
processed variable either lands in the accumulator keys or has a type with
no tuple fields. -/
theorem gtv_step_ok (ii : IntermediateIntent) (old : List VarKey)
    (acc acc' : List ((String × Option String) × Ty) × List VarKey)
    (e : Nat × Var) (h : gtv_step ii old acc e = .ok acc') (hsub : old ⊆ acc.2) :
    acc.2 ⊆ acc'.2 ∧
      (e.1 ∈ acc'.2 ∨
        ∃ ty, kmGet ii.var_types e.1 = some ty ∧ ty.get_tuple_fields = none) := by
  unfold gtv_step at h
  dsimp only at h
  by_cases hc : (old.contains e.1 || acc.2.contains e.1) = true
  · rw [if_pos hc] at h
    injection h with h
    subst h
    refine ⟨List.Subset.refl _, Or.inl ?_⟩
    rcases Bool.or_eq_true_iff.mp hc with hc | hc
    · exact hsub (List.mem_of_elem_eq_true hc)
    · exact List.mem_of_elem_eq_true hc
  · rw [if_neg hc] at h
    cases hk : kmGet ii.var_types e.1 with
    | none => rw [hk] at h; exact absurd h (by simp)
    | some var_ty =>
        rw [hk] at h
        dsimp only at h
        cases hfs : var_ty.get_tuple_fields with
        | none =>
            rw [hfs] at h
            dsimp only at h
            injection h with h
            subst h
            exact ⟨List.Subset.refl _, Or.inr ⟨var_ty, rfl, hfs⟩⟩
        | some fields =>
            rw [hfs] at h
            dsimp only at h
            injection h with h
            subst h
            exact ⟨List.subset_append_left _ _,
              Or.inl (List.mem_append.mpr (Or.inr (List.mem_singleton.mpr rfl)))⟩

/-- Folding the split gather over a variable list: accumulator keys grow,
and every listed variable lands in the final keys or has a type with no
tuple fields. -/
theorem gtv_fold_spec (ii : IntermediateIntent) (old : List VarKey) :
    ∀ (l : List (Nat × Var))
      (acc res : List ((String × Option String) × Ty) × List VarKey),
      l.foldlM (gtv_step ii old) acc = .ok res → old ⊆ acc.2 →
      acc.2 ⊆ res.2 ∧
        ∀ e ∈ l, e.1 ∈ res.2 ∨
          ∃ ty, kmGet ii.var_types e.1 = some ty ∧ ty.get_tuple_fields = none := by
  intro l
  induction l with
  | nil =>
      intro acc res h hsub
      simp only [List.foldlM_nil] at h
      have h' : Except.ok (ε := CompileError) acc = Except.ok res := h
      injection h' with h'
      subst h'
      exact ⟨List.Subset.refl _, by simp⟩
  | cons e t ihs =>
      intro acc res h hsub
      rw [List.foldlM_cons] at h
      cases h1 : gtv_step ii old acc e with
      | error err => rw [h1, except_error_bind] at h; exact absurd h (by simp)
      | ok acc' =>
          rw [h1, except_ok_bind] at h
          obtain ⟨hsub1, hd⟩ := gtv_step_ok ii old acc acc' e h1 hsub
          obtain ⟨hsub2, hrest⟩ := ihs acc' res h (hsub.trans hsub1)
          refine ⟨hsub1.trans hsub2, ?_⟩
          intro x hx
          rcases List.mem_cons.mp hx with hx | hx
          · subst hx
            rcases hd with hd | hd
            · exact Or.inl (hsub2 hd)
            · exact Or.inr hd
          · exact hrest x hx

/-- The gather phase of split_tuple_vars starting from an empty split list:
every variable of the intent is recorded for splitting or carries a type
with no tuple fields. -/
theorem gather_tuple_vars_spec (ii : IntermediateIntent) (old2 : List VarKey)
    (h : gather_tuple_vars ii [] = .ok ([], old2)) :
    ∀ e ∈ ii.vars.entries, e.1 ∈ old2 ∨
      ∃ ty, kmGet ii.var_types e.1 = some ty ∧ ty.get_tuple_fields = none := by
  unfold gather_tuple_vars at h
  exact (gtv_fold_spec ii [] ii.vars.entries ([], []) ([], old2) h (by simp)).2

/-- find? skips a head falsified by the predicate. -/
theorem find_cons_ne {α : Type} (p : α → Bool) (a : α) (l : List α)
    (h : p a = false) : (a :: l).find? p = l.find? p := by
  simp [List.find?, h]

/-- find? returns a head satisfying the predicate. -/
theorem find_cons_tr {α : Type} (p : α → Bool) (a : α) (l : List α)
    (h : p a = true) : (a :: l).find? p = some a := by
  simp [List.find?, h]

/-- kmGet after kmRemove: the removed key reads as absent, the others are
unchanged. -/
theorem kmGet_kmRemove {α : Type} (k key : Nat) (m : KMap α) :
    kmGet (kmRemove m k) key = if key = k then none else kmGet m key := by
  induction m with
  | nil => simp [kmRemove, kmGet]
  | cons e t ih =>
      by_cases hek : e.1 = k
      · have hfc : kmRemove (e :: t) k = kmRemove t k := by
          simp [kmRemove, List.filter_cons, hek]
        rw [hfc, ih]
        by_cases hkey : key = k
        · rw [if_pos hkey, if_pos hkey]
        · rw [if_neg hkey, if_neg hkey]
          have hne : (fun (x : Nat × α) => x.1 == key) e = false := by
            simp only [beq_eq_false_iff_ne, ne_eq, hek]
            exact fun hh => hkey hh.symm
          unfold kmGet
          rw [find_cons_ne (fun (x : Nat × α) => x.1 == key) e t hne]
      · have hfc : kmRemove (e :: t) k = e :: kmRemove t k := by
          simp [kmRemove, List.filter_cons, hek]
        rw [hfc]
        by_cases hekey : e.1 = key
        · have hkk : ¬ key = k := fun hh => hek (hekey.trans hh)
          rw [if_neg hkk]
          have hpos : ((fun (x : Nat × α) => x.1 == key) e = true) := by
            simp [hekey]
          unfold kmGet
          rw [find_cons_tr (fun (x : Nat × α) => x.1 == key) e (kmRemove t k) hpos,
            find_cons_tr (fun (x : Nat × α) => x.1 == key) e t hpos]
        · have hne : (fun (x : Nat × α) => x.1 == key) e = false := by
            simp [hekey]
          unfold kmGet
          rw [find_cons_ne (fun (x : Nat × α) => x.1 == key) e (kmRemove t k) hne,
            find_cons_ne (fun (x : Nat × α) => x.1 == key) e t hne]
          exact ih

/-- Removing a list of variable keys: surviving variable entries come from
the original intent and carry none of the removed keys. -/
theorem removeVarKeys_vars_mem (keys : List VarKey) :
    ∀ (ii : IntermediateIntent) (e : Nat × Var),
      e ∈ (removeVarKeys keys ii).vars.entries →
      e ∈ ii.vars.entries ∧ e.1 ∉ keys := by
  induction keys with
  | nil => intro ii e h; exact ⟨h, by simp⟩
  | cons k ks ih =>
      intro ii e h
      have h' : e ∈ (removeVarKeys ks
          { ii with vars := ii.vars.remove k,
                    var_types := kmRemove ii.var_types k }).vars.entries := h
      obtain ⟨hmem, hnot⟩ := ih _ e h'
      have hmem' : e ∈ (ii.vars.remove k).entries := hmem
      simp only [SlotMap.remove] at hmem'
      have hf := List.mem_filter.mp hmem'
      refine ⟨hf.1, ?_⟩
      intro hk
      rcases List.mem_cons.mp hk with hk | hk
      · have hne := hf.2
        rw [hk] at hne
        simp at hne
      · exact hnot hk

/-- Removing a list of variable keys: surviving type-table reads come from
the original intent and carry none of the removed keys. -/
theorem removeVarKeys_var_types (keys : List VarKey) :
    ∀ (ii : IntermediateIntent) (key : Nat) (ty : Ty),
      kmGet (removeVarKeys keys ii).var_types key = some ty →
      kmGet ii.var_types key = some ty ∧ key ∉ keys := by
  induction keys with
  | nil => intro ii key ty h; exact ⟨h, by simp⟩
  | cons k ks ih =>
      intro ii key ty h
      have h' : kmGet (removeVarKeys ks
          { ii with vars := ii.vars.remove k,
                    var_types := kmRemove ii.var_types k }).var_types key = some ty := h
      obtain ⟨hg, hnot⟩ := ih _ key ty h'
      have hg' : kmGet (kmRemove ii.var_types k) key = some ty := hg
      rw [kmGet_kmRemove] at hg'
      by_cases hkk : key = k
      · rw [if_pos hkk] at hg'; exact absurd hg' (by simp)
      · rw [if_neg hkk] at hg'
        refine ⟨hg', ?_⟩
        intro hmem
        rcases List.mem_cons.mp hmem with hmem | hmem
        · exact hkk hmem
        · exact hnot hmem

/-- A successful kmGet read exhibits a table entry. -/
theorem kmGet_mem {α : Type} (m : KMap α) (k : Nat) (a : α)
    (h : kmGet m k = some a) : (k, a) ∈ m := by
  unfold kmGet at h
  cases hf : m.find? (fun e => e.1 == k) with
  | none => rw [hf] at h; exact absurd h (by simp)
  | some p =>
      rw [hf] at h
      simp only [Option.map_some', Option.some.injEq] at h
      have hm := List.mem_of_find?_eq_some hf
      have hk := List.find?_some hf
      obtain ⟨p1, p2⟩ := p
      have h1 : p1 = k := by simpa using hk
      have h2 : p2 = a := h
      subst h1
      subst h2
      exact hm

/-- A successful SlotMap read exhibits a table entry. -/
theorem slotMap_get_mem {α : Type} (m : SlotMap α) (k : Nat) (a : α)
    (h : m.get k = some a) : (k, a) ∈ m.entries := by
  unfold SlotMap.get at h
  cases hf : m.entries.find? (fun e => e.1 == k) with
  | none => rw [hf] at h; exact absurd h (by simp)
  | some p =>
      rw [hf] at h
      simp only [Option.map_some', Option.some.injEq] at h
      have hm := List.mem_of_find?_eq_some hf
      have hk := List.find?_some hf
      obtain ⟨p1, p2⟩ := p
      have h1 : p1 = k := by simpa using hk
      have h2 : p2 = a := h
      subst h1
      subst h2
      exact hm

end Yurtc

namespace Yurtc

/-- Under no_agg_vars, no listed variable carries an array or tuple type. -/
theorem no_agg_vars_entry (ii : IntermediateIntent) (h : no_agg_vars ii = true)
    (p : Nat × Var) (hp : p ∈ ii.vars.entries) :
    hasArrayTyB ii p.1 = false ∧ hasTupleTyB ii p.1 = false := by
  unfold no_agg_vars at h
  have hall := List.all_eq_true.mp h p hp
  unfold hasArrayTyB hasTupleTyB
  cases hk : kmGet ii.var_types p.1 with
  | none => exact ⟨rfl, rfl⟩
  | some ty =>
      rw [hk] at hall
      obtain ⟨h1, h2⟩ := Bool.and_eq_true_iff.mp hall
      constructor
      · show (get_array_params ty).isSome = false
        rw [Option.isNone_iff_eq_none.mp h1]; rfl
      · show ty.get_tuple_fields.isSome = false
        rw [Option.isNone_iff_eq_none.mp h2]; rfl

/-- Under no_agg_vars, no expression resolves to an array-typed variable. -/
theorem resolvesToArrayVarB_eq_false (ii : IntermediateIntent)
    (h : no_agg_vars ii = true) (k : ExprKey) :
    resolvesToArrayVarB ii k = false := by
  unfold resolvesToArrayVarB
  cases hg : ii.exprs.get k with
  | none => rfl
  | some ex =>
      cases ex with
      | pathByName p =>
          simp only [List.any_eq_false]
          intro x hx
          rw [(no_agg_vars_entry ii h x hx).1]
          simp
      | pathByKey vk =>
          show ((ii.vars.get vk).isSome && hasArrayTyB ii vk) = false
          cases hv : ii.vars.get vk with
          | none => rfl
          | some v =>
              have hm := slotMap_get_mem ii.vars vk v hv
              have hA := (no_agg_vars_entry ii h (vk, v) hm).1
              simp only [Option.isSome_some, Bool.true_and]
              exact hA
      | immediate v => rfl
      | unaryOp op e => rfl
      | binaryOp op l r => rfl
      | array els => rfl
      | arrayElementAccess a i => rfl
      | tuple fs => rfl
      | tupleFieldAccess t f => rfl

/-- Under no_agg_vars, no expression resolves to a tuple-typed variable. -/
theorem resolvesToTupleVarB_eq_false (ii : IntermediateIntent)
    (h : no_agg_vars ii = true) (k : ExprKey) :
    resolvesToTupleVarB ii k = false := by
  unfold resolvesToTupleVarB
  cases hg : ii.exprs.get k with
  | none => rfl
  | some ex =>
      cases ex with
      | pathByName p =>
          simp only [List.any_eq_false]
          intro x hx
          rw [(no_agg_vars_entry ii h x hx).2]
          simp
      | pathByKey vk =>
          show ((ii.vars.get vk).isSome && hasTupleTyB ii vk) = false
          cases hv : ii.vars.get vk with
          | none => rfl
          | some v =>
              have hm := slotMap_get_mem ii.vars vk v hv
              have hT := (no_agg_vars_entry ii h (vk, v) hm).2
              simp only [Option.isSome_some, Bool.true_and]
              exact hT
      | immediate v => rfl
      | unaryOp op e => rfl
      | binaryOp op l r => rfl
      | array els => rfl
      | arrayElementAccess a i => rfl
      | tuple fs => rfl
      | tupleFieldAccess t f => rfl

/-- The amended invariant follows once no variable carries an aggregate
type. -/
theorem amended_of_no_agg (ii : IntermediateIntent)
    (h : no_agg_vars ii = true) : scalarize_invariant_amended ii = true := by
  unfold scalarize_invariant_amended
  rw [h, Bool.true_and, List.all_eq_true]
  intro e he
  obtain ⟨ek, ex⟩ := e
  cases ex with
  | arrayElementAccess a i =>
      show (!resolvesToArrayVarB ii a) = true
      rw [resolvesToArrayVarB_eq_false ii h a]
      rfl
  | tupleFieldAccess t f =>
      show (!resolvesToTupleVarB ii t) = true
      rw [resolvesToTupleVarB_eq_false ii h t]
      rfl
  | immediate v => rfl
  | pathByName p => rfl
  | pathByKey vk => rfl
  | unaryOp op k => rfl
  | binaryOp op l r => rfl
  | array els => rfl
  | tuple fs => rfl

end Yurtc

/-- C1 (amended): for every intermediate intent on which the lowering
pipeline (scalarize) returns success, no decision variable of the result
has an array or tuple type, and no ArrayElementAccess (resp.
TupleFieldAccess) expression targets a decision variable of array (resp.
tuple) type.  The claim's stronger form — that no such access targets any
decision variable — fails on ill-typed inputs; see the counterexample. -/
theorem scalarize_amended_invariant (ii ii' : Yurtc.IntermediateIntent)
    (h : Yurtc.scalarize ii = .ok ii') :
    Yurtc.scalarize_invariant_amended ii' = true := by
  unfold Yurtc.scalarize at h
  cases hf : Yurtc.fix_array_sizes ii with
  | error e => rw [hf, except_error_bind] at h; exact absurd h (by simp)
  | ok ii₀ =>
      rw [hf, except_ok_bind] at h
      cases hit : Yurtc.iterateFix Yurtc.scalarizeStep Yurtc.LOOP_FUEL ii₀ with
      | error e => rw [hit, except_error_bind] at h; exact absurd h (by simp)
      | ok p =>
          rw [hit, except_ok_bind] at h
          obtain ⟨b, ii₂⟩ := p
          dsimp only at h
          injection h with h
          subst h
          obtain ⟨s₀, hstep⟩ :=
            Yurtc.iterateFix_last Yurtc.scalarizeStep Yurtc.LOOP_FUEL ii₀ b ii₂ hit
          unfold Yurtc.scalarizeStep at hstep
          cases ha : Yurtc.scalarize_arrays s₀ with
          | error e => rw [ha, except_error_bind] at hstep; exact absurd hstep (by simp)
          | ok q =>
              rw [ha, except_ok_bind] at hstep
              obtain ⟨ma, ii₁⟩ := q
              dsimp only at hstep
              cases ht : Yurtc.scalarize_tuples ii₁ with
              | error e => rw [ht, except_error_bind] at hstep; exact absurd hstep (by simp)
              | ok r =>
                  rw [ht, except_ok_bind] at hstep
                  obtain ⟨mt, ii₃⟩ := r
                  dsimp only at hstep
                  simp only [Except.ok.injEq, Prod.mk.injEq] at hstep
                  obtain ⟨hmb, hii⟩ := hstep
                  have hmt : mt = false := by
                    cases ma <;> cases mt <;> simp_all
                  subst hii
                  -- array fact at ii₁
                  unfold Yurtc.scalarize_arrays at ha
                  cases ha1 : Yurtc.iterateFix Yurtc.lower_array_compares
                      Yurtc.LOOP_FUEL s₀ with
                  | error e => rw [ha1, except_error_bind] at ha; exact absurd ha (by simp)
                  | ok qa =>
                  rw [ha1, except_ok_bind] at ha
                  obtain ⟨ma', iiA⟩ := qa
                  dsimp only at ha
                  cases ha2 : Yurtc.iterateFix Yurtc.scalarize_array
                      Yurtc.LOOP_FUEL iiA with
                  | error e => rw [ha2, except_error_bind] at ha; exact absurd ha (by simp)
                  | ok qb =>
                  rw [ha2, except_ok_bind] at ha
                  obtain ⟨mb', iiC⟩ := qb
                  dsimp only at ha
                  simp only [Except.ok.injEq, Prod.mk.injEq] at ha
                  obtain ⟨t₀, htt⟩ :=
                    Yurtc.iterateFix_last Yurtc.scalarize_array Yurtc.LOOP_FUEL
                      iiA mb' iiC ha2
                  obtain ⟨hCeq, hArr⟩ := Yurtc.scalarize_array_false t₀ iiC htt
                  have harr : ∀ e ∈ ii₁.var_types,
                      Yurtc.get_array_params e.2 = none := by
                    rw [← ha.2, hCeq]
                    exact hArr
                  -- tuple fixpoint decomposition
                  unfold Yurtc.scalarize_tuples at ht
                  cases ht1 : Yurtc.iterateFix Yurtc.lower_tuple_compares
                      Yurtc.LOOP_FUEL ii₁ with
                  | error e => rw [ht1, except_error_bind] at ht; exact absurd ht (by simp)
                  | ok qc =>
                  rw [ht1, except_ok_bind] at ht
                  obtain ⟨mc, iiB⟩ := qc
                  dsimp only at ht
                  cases ht2 : Yurtc.iterateFix
                      (fun (s : Yurtc.IntermediateIntent × List Yurtc.VarKey) => do
                        let (b, ii', old') <- Yurtc.split_tuple_vars s.1 s.2
                        .ok (b, (ii', old'))) Yurtc.LOOP_FUEL (iiB, []) with
                  | error e => rw [ht2, except_error_bind] at ht; exact absurd ht (by simp)
                  | ok qd =>
                  rw [ht2, except_ok_bind] at ht
                  obtain ⟨md, s⟩ := qd
                  obtain ⟨siid, sold⟩ := s
                  dsimp only at ht
                  simp only [Except.ok.injEq, Prod.mk.injEq] at ht
                  obtain ⟨hmcd, hrm⟩ := ht
                  have hmc : mc = false := by
                    rw [hmt] at hmcd
                    cases mc <;> cases md <;> simp_all
                  have hmd : md = false := by
                    rw [hmt] at hmcd
                    cases mc <;> cases md <;> simp_all
                  subst hmc
                  subst hmd
                  have hB := Yurtc.lower_tuple_compares_false ii₁ iiB
                    (Yurtc.iterateFix_false Yurtc.lower_tuple_compares
                      Yurtc.LOOP_FUEL ii₁ iiB ht1)
                  subst hB
                  have hsp := Yurtc.iterateFix_false _ Yurtc.LOOP_FUEL (iiB, ([] : List Yurtc.VarKey))
                    (siid, sold) ht2
                  dsimp only at hsp
                  cases hsp2 : Yurtc.split_tuple_vars iiB [] with
                  | error e => rw [hsp2, except_error_bind] at hsp; exact absurd hsp (by simp)
                  | ok trip =>
                  rw [hsp2, except_ok_bind] at hsp
                  obtain ⟨bb, iiD, oldD⟩ := trip
                  dsimp only at hsp
                  simp only [Except.ok.injEq, Prod.mk.injEq] at hsp
                  obtain ⟨hbb, hDs, hos⟩ := hsp
                  subst hbb
                  subst hDs
                  subst hos
                  obtain ⟨hDe, hgather⟩ :=
                    Yurtc.split_tuple_vars_false _ _ _ _ hsp2
                  subst hDe
                  have hgs := Yurtc.gather_tuple_vars_spec iiD oldD hgather
                  rw [← hrm]
                  apply Yurtc.amended_of_no_agg
                  unfold Yurtc.no_agg_vars
                  rw [List.all_eq_true]
                  intro e he
                  obtain ⟨hmem, hnotin⟩ := Yurtc.removeVarKeys_vars_mem oldD iiD e he
                  cases hk : Yurtc.kmGet (Yurtc.removeVarKeys oldD iiD).var_types e.1 with
                  | none => rfl
                  | some ty =>
                      obtain ⟨hk1, hnotin2⟩ :=
                        Yurtc.removeVarKeys_var_types oldD iiD e.1 ty hk
                      have hmem2 := Yurtc.kmGet_mem _ _ _ hk1
                      have harrty := harr (e.1, ty) hmem2
                      rcases hgs e hmem with hin | ⟨ty', hty', hfields⟩
                      · exact absurd hin hnotin
                      · have htyeq : ty' = ty := by
                          rw [hty'] at hk1
                          exact Option.some.inj hk1
                        show ((Yurtc.get_array_params ty).isNone
                          && ty.get_tuple_fields.isNone) = true
                        rw [harrty, ← htyeq, hfields]
                        rfl

/-- Witness for C1 (amended): the concrete intent with one int variable
and an array access scalarizes successfully and the amended invariant
holds on the result. -/
theorem scalarize_amended_invariant_witness :
    Yurtc.scalarize Yurtc.iiAccessInt = .ok Yurtc.iiAccessInt ∧
      Yurtc.scalarize_invariant_amended Yurtc.iiAccessInt = true :=
  ⟨rfl, scalarize_amended_invariant Yurtc.iiAccessInt Yurtc.iiAccessInt rfl⟩

/-- Counterexample to C1 as claimed: the intent with an int variable x and
the expression x[0] scalarizes successfully (no pass rewrites it, because
x's type is not an aggregate), yet the result still holds an
ArrayElementAccess whose base resolves to the decision variable x, so the
claimed invariant is false on the output while the amended one is true. -/
theorem scalarize_claimed_invariant_counterexample :
    Yurtc.scalarize Yurtc.iiAccessInt = .ok Yurtc.iiAccessInt ∧
      Yurtc.scalarize_invariant_claimed Yurtc.iiAccessInt = false ∧
      Yurtc.scalarize_invariant_amended Yurtc.iiAccessInt = true :=
  ⟨rfl, rfl, rfl⟩
